import Mathlib

/-!
# god: terminal front-end of a debug session (`main.go`)

A shallow embedding of the view-state interpreter (`Update`), the view-state
persistence (`LoadTermState`, `SaveTermState`) and the pane renderers of
`main.go`, with the properties stated about them.

Conventions of the embedding.

* A Go `string` is a byte sequence.  It is represented by `List Char`, one
  element per byte; on ASCII text the two coincide, and every function below
  only inspects whole elements.
* A Go `int` is a 64-bit two's complement integer.  It is represented by an
  `Int`, and the additions and subtractions of the source on values it reads
  go through `wrapInt`.
* A run-time panic (index out of range, negative slice bound, assignment to
  an entry of a nil map) is the result `Except.error Fault.panic`.
-/

namespace God

/-- A Go string: the sequence of its bytes. -/
abbrev GoString := List Char

/-- How a call can fail to return: a run-time panic, or the recursion budget
of the model ran out. -/
inductive Fault where
  | panic
  | fuel
  deriving DecidableEq, Repr

/-- Largest value of a Go `int` on a 64-bit platform. -/
def maxInt : Int := 9223372036854775807

/-- Smallest value of a Go `int` on a 64-bit platform. -/
def minInt : Int := -9223372036854775808

/-- Two's complement wrap-around of a 64-bit `int` operation. -/
def wrapInt (x : Int) : Int :=
  (x + 9223372036854775808) % 18446744073709551616 - 9223372036854775808

/-- Go `len` of a string or slice, as an `int`. -/
def len {α : Type} (s : List α) : Int := (s.length : Int)

/-! ## Windowing of the source and disassembly panes -/

/-- The window of `printSource` (lines 489-490) and `printAssembly`
(lines 399-400):
`start := max(0, focus-height/2)`, `end := min(start+height, length)`.
Go's `/` truncates toward zero. -/
def window (focus height length : Int) : Int × Int :=
  let start := max 0 (wrapInt (focus - Int.tdiv height 2))
  let stop := min (wrapInt (start + height)) length
  (start, stop)

/-! ## The parts of `strings`, `strconv` and `path/filepath` that `Update` calls -/

/-- The Go function `strings.HasPrefix`. -/
def stringsHasPrefix (s p : GoString) : Bool := p.isPrefixOf s

/-- The Go function `strings.Index`: position of the first occurrence of
`sep` in `s`. -/
def stringsIndex (s sep : GoString) : Option Nat :=
  if sep.isPrefixOf s then some 0
  else match s with
    | [] => none
    | _ :: t => (stringsIndex t sep).map (· + 1)

/-- The Go function `strings.Contains`. -/
def stringsContains (s sub : GoString) : Bool := (stringsIndex s sub).isSome

/-- The Go call `strings.Replace(s, old, new, 1)` for a non-empty `old`: the
first occurrence of `old` is replaced. -/
def stringsReplaceFirst (s old new : GoString) : GoString :=
  match stringsIndex s old with
  | none => s
  | some j => s.take j ++ new ++ s.drop (j + old.length)

/-- The Go function `strings.CutPrefix`. -/
def stringsCutPrefix (s p : GoString) : GoString × Bool :=
  if stringsHasPrefix s p then (s.drop p.length, true) else (s, false)

/-- The Go function `strings.Cut`: `(before, after, found)`. -/
def stringsCut (s sep : GoString) : GoString × GoString × Bool :=
  match stringsIndex s sep with
  | some i => (s.take i, s.drop (i + sep.length), true)
  | none => (s, [], false)

/-- Value of a decimal digit byte, if it is one. -/
def digitVal (c : Char) : Option Nat :=
  if '0'.toNat ≤ c.toNat ∧ c.toNat ≤ '9'.toNat then some (c.toNat - '0'.toNat) else none

/-- Outcome of the digit loop of `strconv.ParseUint(s, 10, 64)`. -/
inductive DigitScan where
  | value (n : Nat)
  | badDigit
  | tooLarge
  deriving DecidableEq, Repr

/-- The digit loop of `strconv.ParseUint(s, 10, 64)`, left to right with the
accumulator `n`: a byte that is no digit is a syntax error, a value past
`2^64 - 1` a range error, whichever comes first. -/
def scanDigits : Nat → GoString → DigitScan
  | n, [] => .value n
  | n, c :: cs =>
    match digitVal c with
    | none => .badDigit
    | some d =>
      if n * 10 + d > 18446744073709551615 then .tooLarge
      else scanDigits (n * 10 + d) cs

/-- The Go function `strconv.Atoi` on a 64-bit platform, as the pair
`(value, err == nil)`.  The value is `0` on a syntax error and the nearest
representable `int` on a range error.  The fast path of `Atoi` (fewer than
19 bytes) and its `ParseInt` path compute the same function. -/
def strconvAtoi (s : GoString) : Int × Bool :=
  match s with
  | [] => (0, false)
  | c :: cs =>
    let neg := c = '-'
    let digits := if c = '+' ∨ c = '-' then cs else s
    match digits with
    | [] => (0, false)
    | _ :: _ =>
      match scanDigits 0 digits with
      | .badDigit => (0, false)
      | .tooLarge => (if neg then minInt else maxInt, false)
      | .value n =>
        if ¬ neg ∧ n ≥ 9223372036854775808 then (maxInt, false)
        else if neg ∧ n > 9223372036854775808 then (minInt, false)
        else (if neg then -(n : Int) else (n : Int), true)

/-- The Go function `strconv.Itoa` for a non-negative argument: the decimal
digits, most significant first. -/
def strconvItoaNat (n : Nat) : GoString := (Nat.toDigits 10 n)

/-- Backtracking step of `filepath.Clean` at a `..` element: starting from
write index `w`, move left while `w > dotdot` and the byte at `w` is no
separator. -/
def cleanBacktrack (buf : GoString) (dotdot : Nat) : Nat → Nat
  | 0 => 0
  | w + 1 =>
    if w + 1 > dotdot ∧ buf.get? (w + 1) ≠ some '/' then cleanBacktrack buf dotdot w
    else w + 1

/-- Main loop of `filepath.Clean` (Unix): `rest` is the unread part of the
path, `out` the bytes written so far, `dotdot` the index where `..` must
stop.  Each round reads at least one byte, so `rest.length` rounds suffice. -/
def cleanLoop (rooted : Bool) : Nat → GoString → GoString → Nat → GoString
  | 0, _, out, _ => out
  | fuel + 1, rest, out, dotdot =>
    match rest with
    | [] => out
    | c :: t =>
      if c = '/' then cleanLoop rooted fuel t out dotdot
      else if c = '.' ∧ (t = [] ∨ t.head? = some '/') then cleanLoop rooted fuel t out dotdot
      else if c = '.' ∧ t.head? = some '.' ∧ (t.tail = [] ∨ t.tail.head? = some '/') then
        if out.length > dotdot then
          cleanLoop rooted fuel t.tail
            (out.take (cleanBacktrack out dotdot (out.length - 1))) dotdot
        else if ¬ rooted then
          let out1 := (if out.length > 0 then out ++ ['/'] else out) ++ ['.', '.']
          cleanLoop rooted fuel t.tail out1 out1.length
        else cleanLoop rooted fuel t.tail out dotdot
      else
        let out1 :=
          if (rooted ∧ out.length ≠ 1) ∨ (¬ rooted ∧ out.length ≠ 0) then out ++ ['/'] else out
        cleanLoop rooted fuel (rest.dropWhile (· ≠ '/')) (out1 ++ rest.takeWhile (· ≠ '/')) dotdot

/-- The Go function `filepath.Clean` on Unix. -/
def filepathClean (path : GoString) : GoString :=
  match path with
  | [] => ['.']
  | c :: t =>
    let rooted : Bool := c = '/'
    let out :=
      if rooted then cleanLoop rooted path.length t ['/'] 1
      else cleanLoop rooted path.length path [] 0
    if out.length = 0 then ['.'] else out

/-- Index just past the last `/` of `path` (`0` when there is none). -/
def lastSlashEnd : GoString → Nat
  | [] => 0
  | c :: t =>
    if '/' ∈ t then lastSlashEnd t + 1
    else if c = '/' then 1 else 0

/-- The Go function `filepath.Dir` on Unix: everything up to the last
separator, cleaned. -/
def filepathDir (path : GoString) : GoString :=
  filepathClean (path.take (lastSlashEnd path))

/-- The Go function `strings.Join`. -/
def stringsJoin (elems : List GoString) (sep : GoString) : GoString :=
  match elems with
  | [] => []
  | [e] => e
  | e :: es => e ++ sep ++ stringsJoin es sep

/-- The Go function `filepath.Join` on Unix: leading empty elements are
dropped, the rest joined with `/` and cleaned. -/
def filepathJoin (elems : List GoString) : GoString :=
  match elems.dropWhile (· = []) with
  | [] => []
  | es => filepathClean (stringsJoin es ['/'])

/-! ## Data model -/

/-- The fields of `api.Variable` the panes read: `Name`, and `Rendered`, the
text `SinglelineStringWithShortTypes()` returns for the variable. -/
structure Variable where
  Name : GoString
  Rendered : GoString
  deriving DecidableEq, Repr

/-- The fields of `api.Breakpoint` the program reads or sets. -/
structure Breakpoint where
  ID : Int := 0
  File : GoString := []
  Line : Int := 0
  FunctionName : GoString := []
  deriving DecidableEq, Repr

/-- The fields of `api.AsmInstruction` the disassembly pane reads. -/
structure AsmInstruction where
  PC : Nat
  File : GoString
  Line : Int
  Bytes : List Nat
  Text : GoString
  AtPC : Bool
  Breakpoint : Bool
  deriving DecidableEq, Repr

/-- The struct `DebugState`. -/
structure DebugState where
  File : GoString
  Line : Int
  GoroutineID : Int
  VarsLocal : List Variable
  VarsFunc : List Variable
  Watch : List Variable
  Breakpoints : List Breakpoint
  Assembly : List AsmInstruction
  deriving DecidableEq, Repr

/-- Contents of a non-nil `map[string][]int`: the line list stored under each
key, `none` for a key that is absent. -/
abbrev LineIndex := GoString → Option (List Int)

/-- The struct `TermState`.  `Breakpoints` is `none` for the nil map (what
`json.Unmarshal` leaves when the document has no such member) and `some m`
for an initialised map. A nil slice and an empty slice are both `[]`. -/
structure TermState where
  LastCommand : GoString
  PaneSource : Bool
  PaneAssembly : Bool
  PaneVars : Bool
  PaneBreakpoints : Bool
  PaneWatch : Bool
  HeightSource : Int
  HeightAssembly : Int
  Watch : List GoString
  Breakpoints : Option LineIndex

/-- Whether the map has the key, and its line list: `m[file]` with the
comma-ok flag. -/
def entryOf (m : Option LineIndex) (file : GoString) : Option (List Int) :=
  match m with
  | none => none
  | some f => f file

/-- The Go expression `m[file]`: the stored slice, the nil slice when the key
is absent or the map is nil. -/
def mapIndex (m : Option LineIndex) (file : GoString) : List Int :=
  (entryOf m file).getD []

/-- The Go statement `m[file] = lines`: panics on the nil map. -/
def mapAssign (m : Option LineIndex) (file : GoString) (lines : List Int) :
    Except Fault (Option LineIndex) :=
  match m with
  | none => .error .panic
  | some f => .ok (some (Function.update f file (some lines)))

/-- The Go statement `delete(m, file)`: no effect on the nil map. -/
def mapDelete (m : Option LineIndex) (file : GoString) : Option LineIndex :=
  match m with
  | none => none
  | some f => some (Function.update f file none)

/-! ## The debugger collaborator -/

/-- One request `Update` sends over the `rpc2` client. -/
inductive DlvCall where
  | Continue
  | Next
  | Step
  | StepOut
  | StepInstruction (skipCalls : Bool)
  | CreateBreakpoint (req : Breakpoint)
  | ClearBreakpoint (id : Int)
  deriving DecidableEq, Repr

/-- How the collaborator answers the requests whose answer `Update` reads:
whether the state received from `Continue()` has `Exited` set, and for
`CreateBreakpoint` and `ClearBreakpoint` the returned breakpoint, `none` when
the call returns an error.  `Update` sends at most one request per command,
so the answers need no state. -/
structure Dlv where
  continueExited : Bool
  createBreakpoint : Breakpoint → Option Breakpoint
  clearBreakpoint : Int → Option Breakpoint

/-- What a returning `Update` yields: the new `TermState`, the continue flag,
and the requests sent to the collaborator, in order. -/
structure UpdateResult where
  term : TermState
  ok : Bool
  calls : List DlvCall

/-! ## Update -/

/-- Lines 225-226: `term.LastCommand = cmd; return term, true`. -/
def finish (term : TermState) (cmd : GoString) (calls : List DlvCall) : UpdateResult :=
  { term := { term with LastCommand := cmd }, ok := true, calls := calls }

/-- Lines 155-163: the alias rewriting at the head of the default case. -/
def expandAlias (cmd : GoString) : GoString :=
  if stringsHasPrefix cmd "c ".toList then stringsReplaceFirst cmd "c ".toList "clear ".toList
  else if stringsHasPrefix cmd "b ".toList then
    stringsReplaceFirst cmd "b ".toList "break ".toList
  else if stringsHasPrefix cmd "w ".toList then
    stringsReplaceFirst cmd "w ".toList "watch ".toList
  else if stringsHasPrefix cmd "uw ".toList then
    stringsReplaceFirst cmd "uw ".toList "unwatch ".toList
  else cmd

/-- Lines 215-219: `for i := range term.Watch { if term.Watch[i] == after {
term.Watch = slices.Delete(term.Watch, i, i+1) } }`.  The range expression is
evaluated once, so the loop runs for every index below the length at entry
(`remaining` counts the rounds left), while `term.Watch[i]` indexes the
current, possibly shortened, slice and panics past its end. -/
def unwatchLoop (after : GoString) : Nat → Nat → List GoString → Except Fault (List GoString)
  | 0, _, watch => .ok watch
  | remaining + 1, i, watch =>
    match watch.get? i with
    | none => .error .panic
    | some e =>
      if e = after then unwatchLoop after remaining (i + 1) (watch.eraseIdx i)
      else unwatchLoop after remaining (i + 1) watch

/-- Lines 208-220: the `unwatch` command on the watch list. -/
def unwatch (after : GoString) (watch : List GoString) : Except Fault (List GoString) :=
  match strconvAtoi after with
  | (id, true) =>
    let idx := wrapInt (id - 1)
    if idx ≥ 0 ∧ idx < len watch then .ok (watch.eraseIdx idx.toNat) else .ok watch
  | (_, false) => unwatchLoop after watch.length 0 watch

/-- Lines 166-173, 179-181 and 186-189: the create request that
`break <after>` sends, and the line it records on success (`none`: the line
of the breakpoint the collaborator returns). -/
def breakRequest (debug : DebugState) (after : GoString) : Breakpoint × Option Int :=
  match stringsCut after ":".toList with
  | (file, linestr, true) =>
    let line := (strconvAtoi linestr).1
    let file :=
      if ¬ stringsContains file "/".toList then filepathJoin [filepathDir debug.File, file]
      else file
    ({ File := file, Line := line }, some line)
  | (_, _, false) =>
    match strconvAtoi after with
    | (_, false) => ({ FunctionName := after }, none)
    | (line, true) => ({ File := debug.File, Line := line }, some line)

/-- Lines 171-177, 181-184 and 186-192: send the create request and, when it
succeeds, append the line to the entry of the returned breakpoint's file. -/
def createAndRecord (term : TermState) (dlv : Dlv) (cmd : GoString) (req : Breakpoint)
    (line : Option Int) : Except Fault UpdateResult :=
  match dlv.createBreakpoint req with
  | some bp =>
    match mapAssign term.Breakpoints bp.File
        (mapIndex term.Breakpoints bp.File ++ [line.getD bp.Line]) with
    | .error e => .error e
    | .ok m => .ok (finish { term with Breakpoints := m } cmd [.CreateBreakpoint req])
  | none => .ok (finish term cmd [.CreateBreakpoint req])

/-- Lines 196-205: send the clear request for the identifier parsed from
`after` and, when it succeeds, delete the returned line from the entry of the
returned file, and the key when no line remains. -/
def clearAndRecord (term : TermState) (dlv : Dlv) (cmd after : GoString) :
    Except Fault UpdateResult :=
  match dlv.clearBreakpoint (strconvAtoi after).1 with
  | some bp =>
    match mapAssign term.Breakpoints bp.File
        ((mapIndex term.Breakpoints bp.File).filter (fun line => ¬ line = bp.Line)) with
    | .error e => .error e
    | .ok m =>
      .ok (finish
        { term with
          Breakpoints := if len (mapIndex m bp.File) = 0 then mapDelete m bp.File else m }
        cmd [.ClearBreakpoint (strconvAtoi after).1])
  | none => .ok (finish term cmd [.ClearBreakpoint (strconvAtoi after).1])

/-- Lines 155-221 and 225-226: the default case of the switch. -/
def updateDefault (term : TermState) (debug : DebugState) (dlv : Dlv) (cmd0 : GoString) :
    Except Fault UpdateResult :=
  let cmd := expandAlias cmd0
  match stringsCutPrefix cmd "break ".toList with
  | (after, true) =>
    createAndRecord term dlv cmd (breakRequest debug after).1 (breakRequest debug after).2
  | (_, false) =>
    match stringsCutPrefix cmd "clear ".toList with
    | (after, true) => clearAndRecord term dlv cmd after
    | (_, false) =>
      match stringsCutPrefix cmd "watch ".toList with
      | (after, true) => .ok (finish { term with Watch := term.Watch ++ [after] } cmd [])
      | (_, false) =>
        match stringsCutPrefix cmd "unwatch ".toList with
        | (after, true) =>
          match unwatch after term.Watch with
          | .error e => .error e
          | .ok watch => .ok (finish { term with Watch := watch } cmd [])
        | (_, false) => .ok (finish term cmd [])

/-- The function `Update` (lines 115-227).  The first argument bounds the
depth of the recursion of the empty command (line 153); a call that needs
more ends in `Fault.fuel`. -/
def Update : Nat → TermState → DebugState → Dlv → GoString → Except Fault UpdateResult
  | 0, _, _, _, _ => .error .fuel
  | fuel + 1, term, debug, dlv, cmd =>
    if cmd = "c".toList ∨ cmd = "continue".toList then
      if dlv.continueExited then .ok { term := term, ok := false, calls := [.Continue] }
      else .ok (finish term cmd [.Continue])
    else if cmd = "n".toList ∨ cmd = "next".toList then .ok (finish term cmd [.Next])
    else if cmd = "s".toList ∨ cmd = "step".toList then .ok (finish term cmd [.Step])
    else if cmd = "so".toList ∨ cmd = "stepout".toList then .ok (finish term cmd [.StepOut])
    else if cmd = "ni".toList ∨ cmd = "nexti".toList then
      .ok (finish term cmd [.StepInstruction true])
    else if cmd = "si".toList ∨ cmd = "stepi".toList then
      .ok (finish term cmd [.StepInstruction false])
    else if cmd = "q".toList ∨ cmd = "quit".toList then
      .ok { term := term, ok := false, calls := [] }
    else if cmd = "pane src".toList ∨ cmd = "pane source".toList then
      .ok (finish { term with PaneSource := !term.PaneSource } cmd [])
    else if cmd = "pane asm".toList ∨ cmd = "pane assembly".toList then
      .ok (finish { term with PaneAssembly := !term.PaneAssembly } cmd [])
    else if cmd = "pane vars".toList ∨ cmd = "pane variables".toList then
      .ok (finish { term with PaneVars := !term.PaneVars } cmd [])
    else if cmd = "pane bp".toList ∨ cmd = "pane breakpoints".toList then
      .ok (finish { term with PaneBreakpoints := !term.PaneBreakpoints } cmd [])
    else if cmd = "pane watch".toList then
      .ok (finish { term with PaneWatch := !term.PaneWatch } cmd [])
    else if cmd = "grow src".toList ∨ cmd = "grow source".toList then
      .ok (finish { term with HeightSource := wrapInt (term.HeightSource + 2) } cmd [])
    else if cmd = "grow asm".toList ∨ cmd = "grow assembly".toList then
      .ok (finish { term with HeightAssembly := wrapInt (term.HeightAssembly + 2) } cmd [])
    else if cmd = "shrink src".toList ∨ cmd = "shrink source".toList then
      .ok (finish { term with HeightSource := max 1 (wrapInt (term.HeightSource - 2)) } cmd [])
    else if cmd = "shrink asm".toList ∨ cmd = "shrink assembly".toList then
      .ok (finish { term with HeightAssembly := max 1 (wrapInt (term.HeightAssembly - 2)) } cmd [])
    else if cmd = [] then Update fuel term debug dlv term.LastCommand
    else updateDefault term debug dlv cmd

/-- The command the switch of `Update` ends up handling: the input, or
`LastCommand` when the input is empty (line 153). -/
def dispatched (term : TermState) (cmd : GoString) : GoString :=
  if cmd = [] then term.LastCommand else cmd

/-! ## Persistence of the view state -/

/-- The functions `json.MarshalIndent` and `json.Unmarshal` at type
`TermState`, over some type `Data` of documents; `none` is a returned error.
`unmarshal` decodes into a zero `TermState`. -/
structure Json (Data : Type) where
  marshalIndent : TermState → Option Data
  unmarshal : Data → Option TermState

/-- The `defaultState` of `LoadTermState` (lines 260-271). -/
def defaultState : TermState :=
  { LastCommand := "?".toList
    PaneSource := true
    PaneAssembly := true
    PaneVars := true
    PaneBreakpoints := true
    PaneWatch := true
    HeightSource := 9
    HeightAssembly := 9
    Watch := []
    Breakpoints := some (fun _ => none) }

/-- The function `LoadTermState` (lines 259-285).  `file` is the content of
`~/.godconfig`, `none` when `os.ReadFile` fails. -/
def LoadTermState {Data : Type} (J : Json Data) (file : Option Data) : TermState :=
  match file with
  | none => defaultState
  | some data =>
    match J.unmarshal data with
    | none => defaultState
    | some state => state

/-- The Go function `slices.Sort` on a `[]int`: the ascending rearrangement. -/
def slicesSort (lines : List Int) : List Int := lines.insertionSort (· ≤ ·)

/-- Lines 290-292: `slices.Sort` applied to the line list of every key. -/
def sortLines (m : Option LineIndex) : Option LineIndex :=
  m.map (fun f file => (f file).map slicesSort)

/-- The struct value `SaveTermState` hands to `json.MarshalIndent`
(lines 288-292): `LastCommand` overwritten by the sentinel, every line list
sorted. -/
def savedState (state : TermState) : TermState :=
  { state with LastCommand := "?".toList, Breakpoints := sortLines state.Breakpoints }

/-- What a call of `SaveTermState` leaves behind: the content of
`~/.godconfig`, and the `TermState` of the caller, whose map the callee
shares. -/
structure SaveEffect (Data : Type) where
  file : Option Data
  caller : TermState

/-- The function `SaveTermState` (lines 287-301).  `file` is the content of
`~/.godconfig` before the call and `writeOk` tells whether `os.WriteFile`
succeeds; a failed call leaves the content as it was.  `slices.Sort` works in
place on the line lists of the map the caller shares, so the caller holds
the sorted lists after the call; `LastCommand` is overwritten in the
callee's copy of the struct only. -/
def SaveTermState {Data : Type} (J : Json Data) (state : TermState) (file : Option Data)
    (writeOk : Bool) : SaveEffect Data :=
  { caller := { state with Breakpoints := sortLines state.Breakpoints }
    file :=
      match J.marshalIndent (savedState state) with
      | none => file
      | some data => if writeOk then some data else file }

/-! ## Rendering of the variables and watch panes -/

/-- One write to the `strings.Builder`: a colour escape sequence or text. -/
inductive Piece where
  | color (code : GoString)
  | text (s : GoString)
  deriving DecidableEq, Repr

/-- Number of bytes of text in the output, colour escape sequences not
counted. -/
def textLength : List Piece → Nat
  | [] => 0
  | .color _ :: ps => textLength ps
  | .text s :: ps => s.length + textLength ps

def ColorFGGray : GoString := "\x1b[38;37m".toList

def ColorFGMagenta : GoString := "\x1b[38;95m".toList

def ColorFGCyan : GoString := "\x1b[38;96m".toList

def ColorFGWhite : GoString := "\x1b[38;97m".toList

/-- The three bytes of the box-drawing character of the rule lines. -/
def heavyRule : GoString := ['\xe2', '\x94', '\x81']

/-- The Go function `strings.Repeat`: panics on a negative count and when the
result would be longer than the largest `int`. -/
def stringsRepeat (s : GoString) (count : Int) : Except Fault GoString :=
  if count < 0 then .error .panic
  else if len s * count > maxInt then .error .panic
  else .ok (List.replicate count.toNat s).flatten

/-- The function `printHeader` (lines 524-535). -/
def printHeader (title : GoString) (width : Int) : Except Fault (List Piece) :=
  let pre : Int := 3
  match stringsRepeat heavyRule pre with
  | .error e => .error e
  | .ok left =>
    match stringsRepeat heavyRule
        (wrapInt (wrapInt (wrapInt (width - len title) - 2) - pre)) with
    | .error e => .error e
    | .ok right =>
      .ok [.color ColorFGCyan, .text left, .color ColorFGMagenta, .text " ".toList,
        .text title, .text " ".toList, .color ColorFGCyan, .text right]

/-- Lines 465-468 and 376-379: the value text cut to
`width-len(v.Name)-7` bytes; the slice expression panics on a negative
bound. -/
def truncateValue (v : Variable) (width : Int) : Except Fault GoString :=
  let s := v.Rendered
  let k := wrapInt (wrapInt (width - len v.Name) - 7)
  if len s > k then
    if k < 0 then .error .panic else .ok (s.take k.toNat)
  else .ok s

/-- Lines 457-471: the body of the inner loop of `printVars` for one variable
of the group with prefix `tag`. -/
def printVarsEntry (tag : GoString) (v : Variable) (width : Int) : Except Fault (List Piece) :=
  match truncateValue v width with
  | .error e => .error e
  | .ok s =>
    .ok [.color ColorFGGray, .text tag, .color ColorFGWhite, .text v.Name, .color ColorFGGray,
      .text " = ".toList, .color ColorFGWhite, .text s, .text "\n".toList]

/-- The inner loop of `printVars` over one group. -/
def printVarsGroup (tag : GoString) (width : Int) : List Variable → Except Fault (List Piece)
  | [] => .ok []
  | v :: vs =>
    match printVarsEntry tag v width with
    | .error e => .error e
    | .ok line =>
      match printVarsGroup tag width vs with
      | .error e => .error e
      | .ok rest => .ok (line ++ rest)

/-- The function `printVars` (lines 449-474): header, then the function
arguments with prefix `fun `, then the locals with prefix `loc `. -/
def printVars (locals funcs : List Variable) (width : Int) : Except Fault (List Piece) :=
  match printHeader "Variables".toList width with
  | .error e => .error e
  | .ok header =>
    match printVarsGroup "fun ".toList width funcs with
    | .error e => .error e
    | .ok fs =>
      match printVarsGroup "loc ".toList width locals with
      | .error e => .error e
      | .ok ls => .ok (header ++ fs ++ ls)

/-- Lines 367-382: the body of the loop of `printWatch` for the entry at
index `i`. -/
def printWatchEntry (i : Nat) (v : Variable) (width : Int) : Except Fault (List Piece) :=
  match truncateValue v width with
  | .error e => .error e
  | .ok s =>
    .ok [.color ColorFGGray, .text (strconvItoaNat (i + 1)), .text " ".toList,
      .color ColorFGWhite, .text v.Name, .color ColorFGGray, .text " = ".toList,
      .color ColorFGWhite, .text s, .text "\n".toList]

/-- The loop of `printWatch` from index `i` on. -/
def printWatchFrom (width : Int) : Nat → List Variable → Except Fault (List Piece)
  | _, [] => .ok []
  | i, v :: vs =>
    match printWatchEntry i v width with
    | .error e => .error e
    | .ok line =>
      match printWatchFrom width (i + 1) vs with
      | .error e => .error e
      | .ok rest => .ok (line ++ rest)

/-- The function `printWatch` (lines 363-385). -/
def printWatch (watch : List Variable) (width : Int) : Except Fault (List Piece) :=
  match printHeader "Watch".toList width with
  | .error e => .error e
  | .ok header =>
    match printWatchFrom width 0 watch with
    | .error e => .error e
    | .ok body => .ok (header ++ body)

/-! ## Rendering of the source pane -/

/-- The loop of `numDigits` (lines 548-551): `for i != 0 { i /= 10; count++ }`.
The first argument bounds the number of rounds; `|i|` rounds suffice. -/
def numDigitsLoop : Nat → Int → Int → Int
  | 0, _, count => count
  | fuel + 1, i, count =>
    if i ≠ 0 then numDigitsLoop fuel (Int.tdiv i 10) (wrapInt (count + 1)) else count

/-- The function `numDigits` (lines 543-553). -/
def numDigits (i : Int) : Int :=
  if i = 0 then 1 else numDigitsLoop i.natAbs i 0

/-- The loop of `iota` (lines 556-563), from the last index of the buffer
down: `todo` holds the part of the buffer not yet written, in reverse, and
`done` the part already written. -/
def iotaLoop : GoString → Int → GoString → GoString
  | [], _, done => done
  | _ :: todo, n, done =>
    if n > 0 then
      iotaLoop todo (Int.tdiv n 10) (Char.ofNat ((Int.tmod n 10).toNat + '0'.toNat) :: done)
    else iotaLoop todo n (' ' :: done)

/-- The function `iota` (lines 555-565), as the new content of `buf`. -/
def iota (buf : GoString) (n : Int) : GoString := iotaLoop buf.reverse n []

/-- The Go call `strings.ReplaceAll(src, "\t", "    ")`. -/
def expandTabs (src : GoString) : GoString :=
  src.flatMap (fun c => if c = '\t' then "    ".toList else [c])

/-- The Go call `strings.Split(src, "\n")`: the pieces between line breaks,
one more than there are line breaks. -/
def splitLines : GoString → List GoString
  | [] => [[]]
  | c :: cs =>
    match splitLines cs with
    | [] => [[]]
    | l :: ls => if c = '\n' then [] :: l :: ls else (c :: l) :: ls

/-- The function `readFileLines` (lines 567-581).  `files` gives the content
`os.ReadFile` returns for a path, `none` when it fails.  The cache is left
out: it returns what an earlier call computed from the same content. -/
def readFileLines (files : GoString → Option GoString) (file : GoString) : List GoString :=
  match files file with
  | none => []
  | some data => splitLines (expandTabs data)

/-- Lines 479-484 and 501: whether `bpmap` has the key `i`, that is, whether
a breakpoint of `file` is at line `i + 1`. -/
def bpmapHas (breakpoints : List Breakpoint) (file : GoString) (i : Int) : Bool :=
  breakpoints.any (fun bp => decide (bp.File = file) && decide (wrapInt (bp.Line - 1) = i))

/-- Lines 515-519: the text of a source line as written, cut to
`width-3-digits` bytes when it is longer than `width-3`; the slice expression
panics on a negative bound. -/
def truncateSource (line : GoString) (width digits : Int) : Except Fault GoString :=
  if len line > wrapInt (width - 3) then
    let k := wrapInt (wrapInt (width - 3) - digits)
    if k < 0 ∨ k > len line then .error .panic else .ok (line.take k.toNat)
  else .ok line

/-- Lines 498-520: the body of the loop of `printSource` for index `i`, with
the gutter buffer as `iota` left it. -/
def printSourceLine (lines : List GoString) (breakpoints : List Breakpoint) (file : GoString)
    (currLine width digits i : Int) (gutter : GoString) : Except Fault (List Piece) :=
  match (if i < 0 then none else lines.get? i.toNat) with
  | none => .error .panic
  | some line =>
    match truncateSource line width digits with
    | .error e => .error e
    | .ok body =>
      .ok [.color (if i = currLine then ColorFGCyan
            else if bpmapHas breakpoints file i then ColorFGMagenta else ColorFGGray),
        .text gutter, .text " ".toList,
        .color (if i = currLine then ColorFGCyan else ColorFGWhite),
        .text body, .text "\n".toList]

/-- Lines 497-521: the loop `for i := start; i < end; i++`, one list of
writes per rendered line.  `remaining` is the number of rounds left,
`end - i`, and `buf` the gutter buffer the rounds share. -/
def printSourceLoop (lines : List GoString) (breakpoints : List Breakpoint) (file : GoString)
    (currLine width digits : Int) : Nat → Int → GoString → Except Fault (List (List Piece))
  | 0, _, _ => .ok []
  | remaining + 1, i, buf =>
    let gutter := iota buf (wrapInt (i + 1))
    match printSourceLine lines breakpoints file currLine width digits i gutter with
    | .error e => .error e
    | .ok row =>
      match printSourceLoop lines breakpoints file currLine width digits remaining
          (wrapInt (i + 1)) gutter with
      | .error e => .error e
      | .ok rows => .ok (row :: rows)

/-- Lines 491-495: the width of the gutter, `max(3, numDigits(end))`. -/
def gutterDigits (stop : Int) : Int := max 3 (numDigits stop)

/-- The body lines of `printSource` (lines 486-521), one list of writes per
line of the window. -/
def printSourceRows (files : GoString → Option GoString) (file : GoString) (pc : Int)
    (breakpoints : List Breakpoint) (width height : Int) : Except Fault (List (List Piece)) :=
  let lines := readFileLines files file
  let currLine := wrapInt (pc - 1)
  let w := window currLine height (len lines)
  let digits := gutterDigits w.2
  printSourceLoop lines breakpoints file currLine width digits (w.2 - w.1).toNat w.1
    (List.replicate digits.toNat ' ')

/-- The function `printSource` (lines 476-522): the header, then the body
lines. -/
def printSource (files : GoString → Option GoString) (file : GoString) (pc : Int)
    (breakpoints : List Breakpoint) (width height : Int) : Except Fault (List Piece) :=
  match printHeader "Source".toList width with
  | .error e => .error e
  | .ok header =>
    match printSourceRows files file pc breakpoints width height with
    | .error e => .error e
    | .ok rows => .ok (header ++ rows.flatten)

/-! ## Rendering of the breakpoints pane -/

/-- The Go function `strconv.Itoa`, which is also what the verb `%d` prints
for an `int`. -/
def strconvItoa (n : Int) : GoString :=
  if n < 0 then '-' :: Nat.toDigits 10 n.natAbs else Nat.toDigits 10 n.natAbs

/-- The Go function `filepath.Base` on Unix: the last element of the path,
trailing separators removed. -/
def filepathBase (path : GoString) : GoString :=
  if path = [] then ['.']
  else
    let stripped := (path.reverse.dropWhile (· = '/')).reverse
    let last := stripped.drop (lastSlashEnd stripped)
    if last = [] then ['/'] else last

/-- The line that `printBreakpoints` formats for one breakpoint (line 355),
as the cell that ends at the tab and the text after it. -/
def breakpointRow (bp : Breakpoint) : GoString × GoString :=
  (ColorFGGray ++ strconvItoa bp.ID,
   ColorFGWhite ++ filepathBase bp.File ++ ":".toList ++ strconvItoa bp.Line ++ " (".toList
     ++ bp.FunctionName ++ ")".toList)

/-- Lines 353-358: the lines handed to the tabwriter, in order. -/
def printBreakpointsRows : List Breakpoint → List (GoString × GoString)
  | [] => []
  | bp :: rest =>
    if bp.ID > 0 then breakpointRow bp :: printBreakpointsRows rest
    else printBreakpointsRows rest

/-- What `tabwriter.NewWriter(w, 0, 1, 1, ' ', 0)` writes at `Flush` for lines
of one tab-terminated cell followed by text: every cell is padded with
blanks to the width of the widest cell plus one.  (The cells and texts of
`breakpointRow` are taken to hold no tab and no line break.) -/
def tabwriterAlign (rows : List (GoString × GoString)) : List GoString :=
  let width := (rows.map (fun r => r.1.length)).foldr max 0 + 1
  rows.map (fun r => r.1 ++ List.replicate (width - r.1.length) ' ' ++ r.2 ++ "\n".toList)

/-- The function `printBreakpoints` (lines 349-361): the header, then the
aligned lines, one write each. -/
def printBreakpoints (breakpoints : List Breakpoint) (width : Int) : Except Fault (List Piece) :=
  match printHeader "Breakpoints".toList width with
  | .error e => .error e
  | .ok header =>
    .ok (header ++ (tabwriterAlign (printBreakpointsRows breakpoints)).map Piece.text)

/-! ## The snapshot -/

/-- The fields of `api.Thread` that `GetState` reads. -/
structure Thread where
  GoroutineID : Int
  File : GoString
  Line : Int
  PC : Nat
  deriving DecidableEq, Repr

/-- The field of `api.DebuggerState` that `GetState` reads; `none` is the nil
pointer. -/
structure DebuggerState where
  CurrentThread : Option Thread
  deriving DecidableEq, Repr

/-- The collaborator as `GetState` sees it: every call takes the state the
collaborator is in and gives the answer (`none` when the call returns an
error) and the state afterwards.  `zeroRendered` is the text that
`SinglelineStringWithShortTypes()` gives for an `api.Variable` whose fields
other than `Name` are zero. -/
structure Session (σ : Type) where
  getState : σ → Option DebuggerState × σ
  listBreakpoints : σ → Bool → Option (List Breakpoint) × σ
  listLocalVariables : σ → Int → Option (List Variable) × σ
  listFunctionArgs : σ → Int → Option (List Variable) × σ
  disassemblePC : σ → Int → Nat → Option (List AsmInstruction) × σ
  evalVariable : σ → Int → GoString → Option Variable × σ
  zeroRendered : GoString

/-- Lines 339 and 341: the entry appended for one watch expression from the
answer of `EvalVariable`. -/
def watchEntry {σ : Type} (S : Session σ) (expr : GoString) (answer : Option Variable) :
    Variable :=
  match answer with
  | none => { Name := expr, Rendered := S.zeroRendered }
  | some v => v

/-- Lines 336-343: the loop over the watch expressions, from the collaborator
state `s`; the entries in order and the state afterwards. -/
def evalWatch {σ : Type} (S : Session σ) (goroutine : Int) : σ → List GoString →
    List Variable × σ
  | s, [] => ([], s)
  | s, expr :: rest =>
    let r := S.evalVariable s goroutine expr
    let rs := evalWatch S goroutine r.2 rest
    (watchEntry S expr r.1 :: rs.1, rs.2)

/-- The Go call `sort.Slice` of line 317: ascending by identifier (where
identifiers are equal, which `sort.Slice` leaves open, the given order is
kept). -/
def sortByID (bps : List Breakpoint) : List Breakpoint :=
  bps.insertionSort (fun a b => a.ID ≤ b.ID)

/-- The function `GetState` (lines 303-347) from the collaborator state `s`:
the snapshot, `none` when an error is returned, and the collaborator state
afterwards.  Reading through a nil `CurrentThread` panics. -/
def GetState {σ : Type} (S : Session σ) (s : σ) (watchExpr : List GoString) :
    Except Fault (Option DebugState × σ) :=
  match S.getState s with
  | (none, s1) => .ok (none, s1)
  | (some ds, s1) =>
    match ds.CurrentThread with
    | none => .error .panic
    | some th =>
      match S.listBreakpoints s1 true with
      | (none, s2) => .ok (none, s2)
      | (some bps, s2) =>
        if th.GoroutineID ≠ 0 then
          match S.listLocalVariables s2 th.GoroutineID with
          | (none, s3) => .ok (none, s3)
          | (some locals, s3) =>
            match S.listFunctionArgs s3 th.GoroutineID with
            | (none, s4) => .ok (none, s4)
            | (some args, s4) =>
              match S.disassemblePC s4 th.GoroutineID th.PC with
              | (none, s5) => .ok (none, s5)
              | (some asm, s5) =>
                let w := evalWatch S th.GoroutineID s5 watchExpr
                .ok (some
                  { File := th.File, Line := th.Line, GoroutineID := th.GoroutineID,
                    VarsLocal := locals, VarsFunc := args, Watch := w.1,
                    Breakpoints := sortByID bps, Assembly := asm }, w.2)
        else
          .ok (some
            { File := th.File, Line := th.Line, GoroutineID := th.GoroutineID,
              VarsLocal := [], VarsFunc := [], Watch := [],
              Breakpoints := sortByID bps, Assembly := [] }, s2)

/-! ## Decimal text, for stating what the gutter holds -/

/-- The decimal representation of a positive number, most significant digit
first (empty for 0). -/
def decimal (n : Nat) : GoString :=
  (Nat.digits 10 n).reverse.map (fun d => Char.ofNat (d + '0'.toNat))

/-- A text right-aligned in `width` columns: blanks on the left. -/
def padLeft (width : Nat) (s : GoString) : GoString :=
  List.replicate (width - s.length) ' ' ++ s

/-! ## Sample inputs -/

/-- A snapshot of a session stopped at `/src/main.go:42`. -/
def sampleDebug : DebugState :=
  { File := "/src/main.go".toList, Line := 42, GoroutineID := 1, VarsLocal := [],
    VarsFunc := [], Watch := [], Breakpoints := [], Assembly := [] }

/-- A collaborator whose breakpoint calls all fail. -/
def dlvFailing : Dlv :=
  { continueExited := false, createBreakpoint := fun _ => none,
    clearBreakpoint := fun _ => none }

/-- A collaborator that creates the requested breakpoint as it is, with
identifier 1, and clears breakpoint `id` as the one at `/src/a.go:10`. -/
def dlvEcho : Dlv :=
  { continueExited := false
    createBreakpoint := fun req => some { req with ID := 1 }
    clearBreakpoint := fun id => some { ID := id, File := "/src/a.go".toList, Line := 10 } }

/-- A collaborator that reports every created breakpoint under the path the
binary was compiled with, `/build/a.go`. -/
def dlvRelocating : Dlv :=
  { continueExited := false
    createBreakpoint := fun req => some { req with ID := 1, File := "/build/a.go".toList }
    clearBreakpoint := fun _ => none }

/-- A lossless codec: the document is the encoded value itself. -/
def jsonLossless : Json TermState :=
  { marshalIndent := some, unmarshal := some }

/-- A ViewState with two breakpoints recorded at line 10 of `/src/a.go`,
after one at line 20, and a key `/src/b.go` with no line. -/
def unsortedState : TermState :=
  { defaultState with
    Breakpoints := some (fun file =>
      if file = "/src/a.go".toList then some [20, 10, 10]
      else if file = "/src/b.go".toList then some []
      else none) }

/-- A thread stopped at `/src/main.go:42` that runs goroutine `g`. -/
def sampleThread (g : Int) : Thread :=
  { GoroutineID := g, File := "/src/main.go".toList, Line := 42, PC := 4096 }

/-- A session whose current thread runs goroutine `g`; every call succeeds,
with nothing to report, and of all expressions only `x` can be evaluated. -/
def sampleSession (g : Int) : Session Unit :=
  { getState := fun s => (some { CurrentThread := some (sampleThread g) }, s)
    listBreakpoints := fun s _ => (some [], s)
    listLocalVariables := fun s _ => (some [], s)
    listFunctionArgs := fun s _ => (some [], s)
    disassemblePC := fun s _ _ => (some [], s)
    evalVariable := fun s _ expr =>
      (if expr = "x".toList then some { Name := expr, Rendered := "1".toList } else none, s)
    zeroRendered := [] }

/-- A breakpoint the debugger keeps for itself, with a negative
identifier. -/
def internalBreakpoint : Breakpoint :=
  { ID := -1, File := "/go/src/runtime/panic.go".toList, Line := 1188,
    FunctionName := "runtime.fatalpanic".toList }

/-- A file system holding `/src/main.go`, a single line of 17 bytes. -/
def sampleFiles : GoString → Option GoString :=
  fun file => if file = "/src/main.go".toList then some "x := compute(a,b)".toList else none

end God

namespace God

/-! ## Windowing -/

theorem wrapInt_of_inRange (x : Int) (h1 : -9223372036854775808 ≤ x)
    (h2 : x ≤ 9223372036854775807) : wrapInt x = x := by
  unfold wrapInt
  omega

theorem tdiv_two_eq (h : Int) (h0 : 0 ≤ h) : Int.tdiv h 2 = h / 2 := by
  rw [Int.tdiv_eq_ediv] <;> omega

/-- C1, as claimed, fails: at line 42 of a file whose lines could not be
read (focus 41, height 9, length 0) the window is `(37, 0)`, so neither
`focus ≤ end` nor `start ≤ end` holds. -/
theorem window_focus_past_end :
    window 41 9 0 = (37, 0) ∧
      ¬ (0 ≤ (window 41 9 0).1 ∧ (window 41 9 0).1 ≤ 41 ∧ 41 ≤ (window 41 9 0).2 ∧
          (window 41 9 0).2 ≤ 0) := by
  decide

/-- C1, amended: for a height `H ≥ 1` and a focus index inside the
sequence, `0 ≤ f ≤ L`, with `start + H` within the range of `int`, the window
`start = max(0, f - H/2)`, `end = min(start + H, L)` satisfies
`0 ≤ start ≤ f ≤ end ≤ L`. -/
theorem window_bounds (f H L : Int) (hH : 1 ≤ H) (hf0 : 0 ≤ f) (hfL : f ≤ L)
    (hL : L ≤ maxInt) (hsum : (window f H L).1 + H ≤ maxInt) :
    0 ≤ (window f H L).1 ∧ (window f H L).1 ≤ f ∧ f ≤ (window f H L).2 ∧
      (window f H L).2 ≤ L := by
  have hdiv := tdiv_two_eq H (by omega)
  unfold maxInt at hL hsum
  have hs0 : 0 ≤ (window f H L).1 := by simp [window]
  have h1 : wrapInt (f - Int.tdiv H 2) = f - H / 2 := by
    rw [hdiv]
    exact wrapInt_of_inRange _ (by omega) (by omega)
  have hstart : (window f H L).1 = max 0 (f - H / 2) := by simp [window, h1]
  rw [hstart] at hsum
  have h2 : wrapInt (max 0 (f - H / 2) + H) = max 0 (f - H / 2) + H :=
    wrapInt_of_inRange _ (by omega) (by omega)
  have hend : (window f H L).2 = min (max 0 (f - H / 2) + H) L := by
    simp [window, h1, h2]
  rw [hstart, hend]
  rcases max_cases 0 (f - H / 2) with ⟨hm, _⟩ | ⟨hm, _⟩ <;>
    rcases min_cases (max 0 (f - H / 2) + H) L with ⟨hn, _⟩ | ⟨hn, _⟩ <;>
    rw [hn] <;> rw [hm] at * <;> omega

theorem window_bounds_witness :
    0 ≤ (window 41 9 100).1 ∧ (window 41 9 100).1 ≤ 41 ∧ 41 ≤ (window 41 9 100).2 ∧
      (window 41 9 100).2 ≤ 100 :=
  window_bounds 41 9 100 (by decide) (by decide) (by decide) (by decide) (by decide)

/-! ## The watch list -/

/-- C2: with the watch list `[y, y]`, `unwatch y` does not return: after the
first deletion the slice has one element, and the second round of the loop
indexes it at 1. -/
theorem update_unwatch_duplicate_panics :
    Update 1 { defaultState with Watch := ["y".toList, "y".toList] } sampleDebug dlvFailing
      "unwatch y".toList = .error .panic := by
  rfl

/-! ## Truncation in the variables and watch panes -/

/-- C3: at width 20, a local variable whose name has 14 bytes makes
`printVars` panic: the cut point `20 - 14 - 7` is negative. -/
theorem printVars_long_name_panics :
    printVars [{ Name := "averyLongName1".toList, Rendered := "1".toList }] [] 20
      = .error .panic := by
  rfl

/-! ## Lemmas on the string functions -/

theorem stringsIndex_single_none (c : Char) (s : GoString) (h : c ∉ s) :
    stringsIndex s [c] = none := by
  induction s with
  | nil => simp [stringsIndex, List.isPrefixOf]
  | cons a t ih =>
    have hne : ¬ c = a := fun e => h (by simp [e])
    have ht : c ∉ t := fun e => h (by simp [e])
    simp [stringsIndex, List.isPrefixOf, hne, ih ht]

theorem stringsIndex_single_first (c : Char) (pre rest : GoString) (h : c ∉ pre) :
    stringsIndex (pre ++ c :: rest) [c] = some pre.length := by
  induction pre with
  | nil => simp [stringsIndex, List.isPrefixOf]
  | cons a t ih =>
    have hne : ¬ c = a := fun e => h (by simp [e])
    have ht : c ∉ t := fun e => h (by simp [e])
    simp [stringsIndex, List.isPrefixOf, hne, ih ht]

theorem stringsContains_single (c : Char) (s : GoString) :
    stringsContains s [c] = decide (c ∈ s) := by
  induction s with
  | nil => simp [stringsContains, stringsIndex, List.isPrefixOf]
  | cons a t ih =>
    by_cases hca : c = a
    · simp [stringsContains, stringsIndex, List.isPrefixOf, hca]
    · simp only [stringsContains] at ih
      simp [stringsContains, stringsIndex, List.isPrefixOf, hca, ih]

theorem stringsCut_single (c : Char) (pre rest : GoString) (h : c ∉ pre) :
    stringsCut (pre ++ c :: rest) [c] = (pre, rest, true) := by
  simp [stringsCut, stringsIndex_single_first c pre rest h]

theorem stringsCut_single_absent (c : Char) (s : GoString) (h : c ∉ s) :
    stringsCut s [c] = (s, [], false) := by
  simp [stringsCut, stringsIndex_single_none c s h]

theorem scanDigits_value_digits (s : GoString) :
    ∀ n m, scanDigits n s = .value m → ∀ c ∈ s, (digitVal c).isSome = true := by
  induction s with
  | nil => intro n m _ c hc; simp at hc
  | cons a t ih =>
    intro n m h c hc
    simp only [scanDigits] at h
    cases hd : digitVal a with
    | none => simp [hd] at h
    | some d =>
      simp only [hd] at h
      split at h
      · simp at h
      · rcases List.mem_cons.mp hc with rfl | hct
        · simp [hd]
        · exact ih _ _ h c hct

/-- A text that `strconv.Atoi` accepts holds no colon. -/
theorem atoi_ok_no_colon (s : GoString) (n : Int) (h : strconvAtoi s = (n, true)) :
    ':' ∉ s := by
  cases s with
  | nil => simp
  | cons c cs =>
    simp only [strconvAtoi] at h
    have key : ∀ ds : GoString, ∀ m, scanDigits 0 ds = .value m → ':' ∉ ds := by
      intro ds m hm hmem
      have := scanDigits_value_digits ds 0 m hm ':' hmem
      simp [digitVal] at this
    by_cases hsign : c = '+' ∨ c = '-'
    · simp only [hsign, if_true] at h
      cases cs with
      | nil => simp at h
      | cons d ds =>
        simp only at h
        cases hs : scanDigits 0 (d :: ds) with
        | badDigit => simp [hs] at h
        | tooLarge => simp [hs] at h
        | value m =>
          have hcs := key _ _ hs
          intro hmem
          rcases List.mem_cons.mp hmem with e | e
          · rcases hsign with r | r <;> rw [r] at e <;> exact absurd e (by decide)
          · exact hcs e
    · simp only [hsign, if_false] at h
      cases hs : scanDigits 0 (c :: cs) with
      | badDigit => simp [hs] at h
      | tooLarge => simp [hs] at h
      | value m => exact key _ _ hs

/-! ## Dispatch of the breakpoint commands -/

theorem update_break_eq (fuel : Nat) (term : TermState) (debug : DebugState) (dlv : Dlv)
    (after : GoString) :
    Update (fuel + 1) term debug dlv ("break ".toList ++ after) =
      createAndRecord term dlv ("break ".toList ++ after) (breakRequest debug after).1
        (breakRequest debug after).2 := by
  simp [Update, updateDefault, expandAlias, stringsHasPrefix, stringsCutPrefix, String.toList]

theorem update_b_eq (fuel : Nat) (term : TermState) (debug : DebugState) (dlv : Dlv)
    (after : GoString) :
    Update (fuel + 1) term debug dlv ("b ".toList ++ after) =
      createAndRecord term dlv ("break ".toList ++ after) (breakRequest debug after).1
        (breakRequest debug after).2 := by
  simp [Update, updateDefault, expandAlias, stringsHasPrefix, stringsCutPrefix,
    stringsReplaceFirst, stringsIndex, String.toList]

theorem update_clear_eq (fuel : Nat) (term : TermState) (debug : DebugState) (dlv : Dlv)
    (after : GoString) :
    Update (fuel + 1) term debug dlv ("clear ".toList ++ after) =
      clearAndRecord term dlv ("clear ".toList ++ after) after := by
  simp [Update, updateDefault, expandAlias, stringsHasPrefix, stringsCutPrefix, String.toList,
    clearAndRecord]

theorem update_c_eq (fuel : Nat) (term : TermState) (debug : DebugState) (dlv : Dlv)
    (after : GoString) :
    Update (fuel + 1) term debug dlv ("c ".toList ++ after) =
      clearAndRecord term dlv ("clear ".toList ++ after) after := by
  simp [Update, updateDefault, expandAlias, stringsHasPrefix, stringsCutPrefix,
    stringsReplaceFirst, stringsIndex, String.toList, clearAndRecord]

theorem breakRequest_file_line (debug : DebugState) (file linestr : GoString)
    (h : ':' ∉ file) :
    breakRequest debug (file ++ ":".toList ++ linestr) =
      ({ File := if '/' ∈ file then file else filepathJoin [filepathDir debug.File, file],
         Line := (strconvAtoi linestr).1 }, some (strconvAtoi linestr).1) := by
  have hcut : stringsCut (file ++ ':' :: linestr) [':'] = (file, linestr, true) :=
    stringsCut_single ':' file linestr h
  have hcont : stringsContains file ['/'] = decide ('/' ∈ file) := stringsContains_single '/' file
  by_cases hs : '/' ∈ file <;>
    simp [breakRequest, String.toList, hcut, hcont, hs]

theorem breakRequest_line (debug : DebugState) (after : GoString) (line : Int)
    (h : strconvAtoi after = (line, true)) :
    breakRequest debug after = ({ File := debug.File, Line := line }, some line) := by
  have hcut : stringsCut after [':'] = (after, [], false) :=
    stringsCut_single_absent ':' after (atoi_ok_no_colon after line h)
  simp [breakRequest, String.toList, hcut, h]

/-! ## Breakpoint bookkeeping -/

/-- C4, as claimed, fails: `break a.go:10` at `/src/main.go` sends the request
for `/src/a.go:10`; the collaborator succeeds and reports the breakpoint in
`/build/a.go`; the returned index has no entry for the requested file
`/src/a.go`, the line is under `/build/a.go`. -/
theorem update_break_records_returned_file :
    ∃ r, Update 1 defaultState sampleDebug dlvRelocating "break a.go:10".toList = .ok r ∧
      r.calls = [.CreateBreakpoint { File := "/src/a.go".toList, Line := 10 }] ∧
      entryOf r.term.Breakpoints "/src/a.go".toList = none ∧
      entryOf r.term.Breakpoints "/build/a.go".toList = some [10] :=
  ⟨_, rfl, rfl, rfl, rfl⟩

/-- C4, amended: for a ViewState whose breakpointIndex map is initialised,
when `Update` handles `break <file>:<line>` (file resolved against the
current file's directory when it has no path separator) or `break <integer>`
(that line in the snapshot's current file) and the create call succeeds, the
create request carries that file and line, and in the returned
breakpointIndex the entry of the file named by the breakpoint the
collaborator returned is the previous entry with the requested line
appended, every other file's entry unchanged. -/
theorem update_break_records (term : TermState) (debug : DebugState) (dlv : Dlv)
    (m : LineIndex) (after : GoString) (req bp : Breakpoint) (line : Int) (fuel : Nat)
    (hm : term.Breakpoints = some m)
    (hform :
      (∃ file linestr, ':' ∉ file ∧ after = file ++ ":".toList ++ linestr ∧
        line = (strconvAtoi linestr).1 ∧
        req = { File := if '/' ∈ file then file else filepathJoin [filepathDir debug.File, file],
                Line := line }) ∨
      (strconvAtoi after = (line, true) ∧ req = { File := debug.File, Line := line }))
    (hok : dlv.createBreakpoint req = some bp) :
    ∃ r, Update (fuel + 1) term debug dlv ("break ".toList ++ after) = .ok r ∧ r.ok = true ∧
      r.calls = [.CreateBreakpoint req] ∧
      entryOf r.term.Breakpoints bp.File = some (mapIndex term.Breakpoints bp.File ++ [line]) ∧
      ∀ other, other ≠ bp.File →
        entryOf r.term.Breakpoints other = entryOf term.Breakpoints other := by
  have hreq : breakRequest debug after = (req, some line) := by
    rcases hform with ⟨file, linestr, hcolon, rfl, rfl, rfl⟩ | ⟨hatoi, rfl⟩
    · exact breakRequest_file_line debug file linestr hcolon
    · exact breakRequest_line debug after line hatoi
  have hres : createAndRecord term dlv ("break ".toList ++ after) req (some line) =
      .ok (finish
        { term with
          Breakpoints := some (Function.update m bp.File (some ((m bp.File).getD [] ++ [line]))) }
        ("break ".toList ++ after) [.CreateBreakpoint req]) := by
    simp [createAndRecord, hok, hm, mapAssign, mapIndex, entryOf]
  rw [update_break_eq, hreq]
  refine ⟨_, hres, rfl, rfl, ?_, ?_⟩
  · simp [finish, entryOf, mapIndex, hm]
  · intro other hne
    simp [finish, entryOf, Function.update, hne, hm]

theorem update_break_records_witness :
    ∃ r, Update 1 defaultState sampleDebug dlvEcho ("break ".toList ++ "a.go:10".toList) = .ok r ∧
      r.ok = true ∧
      r.calls = [.CreateBreakpoint { File := "/src/a.go".toList, Line := 10 }] ∧
      entryOf r.term.Breakpoints "/src/a.go".toList =
        some (mapIndex defaultState.Breakpoints "/src/a.go".toList ++ [10]) ∧
      ∀ other, other ≠ "/src/a.go".toList →
        entryOf r.term.Breakpoints other = entryOf defaultState.Breakpoints other :=
  update_break_records defaultState sampleDebug dlvEcho (fun _ => none) "a.go:10".toList
    { File := "/src/a.go".toList, Line := 10 }
    { ID := 1, File := "/src/a.go".toList, Line := 10 } 10 0 rfl
    (Or.inl ⟨"a.go".toList, "10".toList, by decide, rfl, rfl, rfl⟩) rfl

/-- C5: on a ViewState whose breakpointIndex is the nil map (what
`LoadTermState` yields for a config document without a `Breakpoints`
member), `clear 1` with a succeeding clear call does not return: the
assignment of line 199 panics. -/
theorem update_clear_nil_map_panics :
    Update 1 { defaultState with Breakpoints := none } sampleDebug dlvEcho "clear 1".toList
      = .error .panic := by
  rfl

/-- On an initialised breakpointIndex, a succeeding `clear <id>` removes the
returned line from the returned file's entry, keeps the other lines of that
file in order, drops the key when no line remains, and leaves every other
file's entry unchanged. -/
theorem update_clear_removes_line (term : TermState) (debug : DebugState) (dlv : Dlv)
    (m : LineIndex) (after : GoString) (bp : Breakpoint) (fuel : Nat)
    (hm : term.Breakpoints = some m)
    (hok : dlv.clearBreakpoint (strconvAtoi after).1 = some bp) :
    ∃ r, Update (fuel + 1) term debug dlv ("clear ".toList ++ after) = .ok r ∧ r.ok = true ∧
      r.calls = [.ClearBreakpoint (strconvAtoi after).1] ∧
      bp.Line ∉ mapIndex r.term.Breakpoints bp.File ∧
      mapIndex r.term.Breakpoints bp.File =
        (mapIndex term.Breakpoints bp.File).filter (fun line => ¬ line = bp.Line) ∧
      (mapIndex r.term.Breakpoints bp.File = [] → entryOf r.term.Breakpoints bp.File = none) ∧
      ∀ other, other ≠ bp.File →
        entryOf r.term.Breakpoints other = entryOf term.Breakpoints other := by
  have hlen : ∀ l : List Int, len l = 0 ↔ l = [] := by
    intro l
    simp [len]
  rw [update_clear_eq]
  by_cases hall : ∀ a ∈ (m bp.File).getD [], a = bp.Line
  · have hres : clearAndRecord term dlv ("clear ".toList ++ after) after =
        .ok (finish { term with Breakpoints := some (Function.update m bp.File none) }
          ("clear ".toList ++ after) [.ClearBreakpoint (strconvAtoi after).1]) := by
      simp [clearAndRecord, hok, hm, mapAssign, mapIndex, entryOf, mapDelete, hlen]
      rw [if_pos hall]
    refine ⟨_, hres, rfl, rfl, ?_, ?_, ?_, ?_⟩
    · simp [finish, entryOf, mapIndex]
    · simpa [finish, entryOf, mapIndex, hm] using hall
    · simp [finish, entryOf, mapIndex]
    · intro other hne
      simp [finish, entryOf, Function.update, hne, hm]
  · have hres : clearAndRecord term dlv ("clear ".toList ++ after) after =
        .ok (finish
          { term with
            Breakpoints := some (Function.update m bp.File
              (some (((m bp.File).getD []).filter (fun line => ¬ line = bp.Line)))) }
          ("clear ".toList ++ after) [.ClearBreakpoint (strconvAtoi after).1]) := by
      simp [clearAndRecord, hok, hm, mapAssign, mapIndex, entryOf, mapDelete, hlen]
      rw [if_neg hall]
    refine ⟨_, hres, rfl, rfl, ?_, ?_, ?_, ?_⟩
    · simp [finish, entryOf, mapIndex]
    · simp [finish, entryOf, mapIndex, hm]
    · intro h
      simp [finish, entryOf, mapIndex] at h
      exact absurd h hall
    · intro other hne
      simp [finish, entryOf, Function.update, hne, hm]

/-- C9: when the create call of a `break` command (`break X` or `b X`) fails,
or the clear call of a `clear` command (`clear X` or `c X`) fails, `Update`
returns continue = true with the one call recorded, and the returned
ViewState is the input with only `LastCommand` replaced by the command in
its long form. -/
theorem update_failed_call_keeps_state (term : TermState) (debug : DebugState) (dlv : Dlv)
    (after : GoString) (fuel : Nat) :
    (dlv.createBreakpoint (breakRequest debug after).1 = none →
      ∀ cmd, cmd = "break ".toList ++ after ∨ cmd = "b ".toList ++ after →
        Update (fuel + 1) term debug dlv cmd =
          .ok { term := { term with LastCommand := "break ".toList ++ after }, ok := true,
                calls := [.CreateBreakpoint (breakRequest debug after).1] }) ∧
    (dlv.clearBreakpoint (strconvAtoi after).1 = none →
      ∀ cmd, cmd = "clear ".toList ++ after ∨ cmd = "c ".toList ++ after →
        Update (fuel + 1) term debug dlv cmd =
          .ok { term := { term with LastCommand := "clear ".toList ++ after }, ok := true,
                calls := [.ClearBreakpoint (strconvAtoi after).1] }) := by
  constructor
  · intro hfail cmd hcmd
    rcases hcmd with rfl | rfl
    · rw [update_break_eq]; simp [createAndRecord, hfail, finish]
    · rw [update_b_eq]; simp [createAndRecord, hfail, finish]
  · intro hfail cmd hcmd
    rcases hcmd with rfl | rfl
    · rw [update_clear_eq]; simp [clearAndRecord, hfail, finish]
    · rw [update_c_eq]; simp [clearAndRecord, hfail, finish]

theorem update_failed_call_keeps_state_witness :
    Update 1 defaultState sampleDebug dlvFailing "b a.go:10".toList =
        .ok { term := { defaultState with LastCommand := "break a.go:10".toList }, ok := true,
              calls := [.CreateBreakpoint { File := "/src/a.go".toList, Line := 10 }] } ∧
      Update 1 defaultState sampleDebug dlvFailing "clear 7".toList =
        .ok { term := { defaultState with LastCommand := "clear 7".toList }, ok := true,
              calls := [.ClearBreakpoint 7] } :=
  ⟨(update_failed_call_keeps_state defaultState sampleDebug dlvFailing "a.go:10".toList 0).1 rfl
      "b a.go:10".toList (Or.inr rfl),
    (update_failed_call_keeps_state defaultState sampleDebug dlvFailing "7".toList 0).2 rfl
      "clear 7".toList (Or.inl rfl)⟩

/-! ## Saving and loading the view state -/

theorem entryOf_sortLines (m : Option LineIndex) (file : GoString) :
    entryOf (sortLines m) file = (entryOf m file).map slicesSort := by
  cases m <;> rfl

theorem slicesSort_sorted (lines : List Int) : (slicesSort lines).Sorted (· ≤ ·) :=
  List.sorted_insertionSort (· ≤ ·) lines

theorem slicesSort_perm (lines : List Int) : (slicesSort lines).Perm lines :=
  List.perm_insertionSort (· ≤ ·) lines

theorem sortLines_of_sorted (m : Option LineIndex)
    (h : ∀ file lines, entryOf m file = some lines → lines.Sorted (· ≤ ·)) :
    sortLines m = m := by
  cases m with
  | none => rfl
  | some f =>
    simp only [sortLines, Option.map_some']
    congr 1
    funext file
    cases hf : f file with
    | none => rfl
    | some lines =>
      have hs : lines.Sorted (· ≤ ·) := h file lines (by simp [entryOf, hf])
      simp [slicesSort, List.Sorted.insertionSort_eq hs]

/-- C6, as claimed, fails: the state serialised for `unsortedState` keeps
line 10 of `/src/a.go` twice and keeps the key `/src/b.go` with its empty
line list. -/
theorem savedState_keeps_duplicates :
    entryOf (savedState unsortedState).Breakpoints "/src/a.go".toList = some [10, 10, 20] ∧
      ¬ ([10, 10, 20] : List Int).Nodup ∧
      entryOf (savedState unsortedState).Breakpoints "/src/b.go".toList = some [] := by
  refine ⟨by decide, by decide, by decide⟩

/-- C6, amended: in the state that `SaveTermState` serialises, every
breakpointIndex line list is sorted ascending and is a rearrangement of the
list the ViewState held under that file (duplicates stay), and the file keys
are those of the ViewState (a key with an empty line list stays). -/
theorem savedState_lines_sorted (state : TermState) (file : GoString) (lines : List Int)
    (h : entryOf (savedState state).Breakpoints file = some lines) :
    lines.Sorted (· ≤ ·) ∧
      (∃ before, entryOf state.Breakpoints file = some before ∧ lines.Perm before) ∧
      ∀ other, (entryOf (savedState state).Breakpoints other).isSome =
        (entryOf state.Breakpoints other).isSome := by
  have hkey : ∀ other, entryOf (savedState state).Breakpoints other =
      (entryOf state.Breakpoints other).map slicesSort :=
    fun other => entryOf_sortLines state.Breakpoints other
  rw [hkey file] at h
  cases hb : entryOf state.Breakpoints file with
  | none => simp [hb] at h
  | some before =>
    simp only [hb, Option.map_some', Option.some.injEq] at h
    subst h
    refine ⟨slicesSort_sorted before, ⟨before, rfl, slicesSort_perm before⟩, ?_⟩
    intro other
    rw [hkey other]
    cases entryOf state.Breakpoints other <;> rfl

theorem savedState_lines_sorted_witness :
    ([10, 10, 20] : List Int).Sorted (· ≤ ·) ∧
      (∃ before, entryOf unsortedState.Breakpoints "/src/a.go".toList = some before ∧
        ([10, 10, 20] : List Int).Perm before) ∧
      ∀ other, (entryOf (savedState unsortedState).Breakpoints other).isSome =
        (entryOf unsortedState.Breakpoints other).isSome :=
  savedState_lines_sorted unsortedState "/src/a.go".toList [10, 10, 20] (by decide)

/-- C7, as claimed, fails: saving `unsortedState` and loading it again gives
`[10, 10, 20]` under `/src/a.go`, where the saved ViewState had
`[20, 10, 10]`. -/
theorem save_load_reorders_lines :
    entryOf (LoadTermState jsonLossless
        (SaveTermState jsonLossless unsortedState none true).file).Breakpoints
        "/src/a.go".toList
      = some [10, 10, 20] ∧
    entryOf unsortedState.Breakpoints "/src/a.go".toList = some [20, 10, 10] ∧
    LoadTermState jsonLossless (SaveTermState jsonLossless unsortedState none true).file
      ≠ { unsortedState with LastCommand := "?".toList } := by
  refine ⟨by decide, by decide, ?_⟩
  intro h
  have h2 := congrArg (fun t : TermState => entryOf t.Breakpoints "/src/a.go".toList) h
  revert h2
  decide

/-- C7, amended: when the write succeeds and the document decodes to the
value that was encoded, saving a ViewState `s` and loading it yields `s` with
`LastCommand` reset to the sentinel `?` and every breakpointIndex line list
sorted ascending.  That is the ViewState the caller holds after the save
(the sort is in place) except for `LastCommand`, and it equals `s` in every
field except `LastCommand` whenever the line lists of `s` were sorted. -/
theorem save_load (Data : Type) (J : Json Data) (s : TermState) (file : Option Data)
    (data : Data) (hmarshal : J.marshalIndent (savedState s) = some data)
    (hdecode : J.unmarshal data = some (savedState s)) :
    LoadTermState J (SaveTermState J s file true).file =
        { s with LastCommand := "?".toList, Breakpoints := sortLines s.Breakpoints } ∧
      (∀ f, entryOf (LoadTermState J (SaveTermState J s file true).file).Breakpoints f =
        (entryOf s.Breakpoints f).map slicesSort) ∧
      LoadTermState J (SaveTermState J s file true).file =
        { (SaveTermState J s file true).caller with LastCommand := "?".toList } ∧
      ((∀ f lines, entryOf s.Breakpoints f = some lines → lines.Sorted (· ≤ ·)) →
        LoadTermState J (SaveTermState J s file true).file =
          { s with LastCommand := "?".toList }) := by
  have hload : LoadTermState J (SaveTermState J s file true).file = savedState s := by
    simp [SaveTermState, LoadTermState, hmarshal, hdecode]
  rw [hload]
  refine ⟨rfl, fun f => entryOf_sortLines s.Breakpoints f, rfl, ?_⟩
  intro hsorted
  simp [savedState, sortLines_of_sorted s.Breakpoints hsorted]

theorem save_load_witness :
    LoadTermState jsonLossless (SaveTermState jsonLossless unsortedState none true).file =
        { unsortedState with
          LastCommand := "?".toList, Breakpoints := sortLines unsortedState.Breakpoints } ∧
      (∀ f, entryOf (LoadTermState jsonLossless
          (SaveTermState jsonLossless unsortedState none true).file).Breakpoints f =
        (entryOf unsortedState.Breakpoints f).map slicesSort) ∧
      LoadTermState jsonLossless (SaveTermState jsonLossless unsortedState none true).file =
        { (SaveTermState jsonLossless unsortedState none true).caller with
          LastCommand := "?".toList } ∧
      ((∀ f lines, entryOf unsortedState.Breakpoints f = some lines → lines.Sorted (· ≤ ·)) →
        LoadTermState jsonLossless (SaveTermState jsonLossless unsortedState none true).file =
          { unsortedState with LastCommand := "?".toList }) :=
  save_load TermState jsonLossless unsortedState none (savedState unsortedState) rfl rfl

/-! ## Repeating the last command -/

theorem update_fuel_irrelevant (n k : Nat) (term : TermState) (debug : DebugState) (dlv : Dlv)
    (cmd : GoString) (h : cmd ≠ []) :
    Update (n + 1) term debug dlv cmd = Update (k + 1) term debug dlv cmd := by
  simp only [Update, h, if_false]

theorem update_empty_eq (n : Nat) (term : TermState) (debug : DebugState) (dlv : Dlv) :
    Update (n + 1) term debug dlv [] = Update n term debug dlv term.LastCommand := by
  simp [Update, String.toList]

theorem unwatchLoop_error (after : GoString) :
    ∀ remaining i watch e, unwatchLoop after remaining i watch = .error e → e = .panic := by
  intro remaining
  induction remaining with
  | zero => intro i watch e h; simp [unwatchLoop] at h
  | succ r ih =>
    intro i watch e h
    simp only [unwatchLoop] at h
    split at h
    · exact (Except.error.inj h).symm
    · split at h
      · exact ih _ _ _ h
      · exact ih _ _ _ h

theorem mapAssign_error (m : Option LineIndex) (file : GoString) (lines : List Int) (e : Fault)
    (h : mapAssign m file lines = .error e) : e = .panic := by
  cases m with
  | none => exact (Except.error.inj h).symm
  | some f => simp [mapAssign] at h

theorem createAndRecord_error (term : TermState) (dlv : Dlv) (cmd : GoString) (req : Breakpoint)
    (line : Option Int) (e : Fault) (h : createAndRecord term dlv cmd req line = .error e) :
    e = .panic := by
  unfold createAndRecord at h
  split at h
  · split at h
    · next e2 he => cases h; exact mapAssign_error _ _ _ _ he
    · cases h
  · cases h

theorem clearAndRecord_error (term : TermState) (dlv : Dlv) (cmd after : GoString) (e : Fault)
    (h : clearAndRecord term dlv cmd after = .error e) : e = .panic := by
  unfold clearAndRecord at h
  split at h
  · split at h
    · next e2 he => cases h; exact mapAssign_error _ _ _ _ he
    · cases h
  · cases h

theorem unwatch_error (after : GoString) (watch : List GoString) (e : Fault)
    (h : unwatch after watch = .error e) : e = .panic := by
  unfold unwatch at h
  split at h
  · dsimp only at h
    split at h <;> cases h
  · exact unwatchLoop_error _ _ _ _ _ h

theorem updateDefault_error (term : TermState) (debug : DebugState) (dlv : Dlv)
    (cmd : GoString) (e : Fault) (h : updateDefault term debug dlv cmd = .error e) :
    e = .panic := by
  unfold updateDefault at h
  simp only at h
  split at h
  · exact createAndRecord_error _ _ _ _ _ _ h
  · split at h
    · exact clearAndRecord_error _ _ _ _ _ h
    · split at h
      · cases h
      · split at h
        · split at h
          · next e2 he => cases h; exact unwatch_error _ _ _ he
          · cases h
        · cases h

/-- A non-empty command never exhausts the recursion budget. -/
theorem update_nonempty_error (n : Nat) (term : TermState) (debug : DebugState) (dlv : Dlv)
    (cmd : GoString) (e : Fault) (hcmd : cmd ≠ [])
    (h : Update (n + 1) term debug dlv cmd = .error e) : e = .panic := by
  rw [Update] at h
  obtain ⟨_, h⟩ | ⟨_, h⟩ := ite_eq_iff.mp h
  · obtain ⟨_, h⟩ | ⟨_, h⟩ := ite_eq_iff.mp h <;> cases h
  iterate 15 (obtain ⟨_, h⟩ | ⟨_, h⟩ := ite_eq_iff.mp h; (· cases h))
  obtain ⟨hx, h⟩ | ⟨_, h⟩ := ite_eq_iff.mp h
  · exact absurd hx hcmd
  · exact updateDefault_error _ _ _ _ _ h

/-- C8: for a ViewState whose `LastCommand` is a non-empty command `L`,
`Update` on the empty input gives exactly the result of `Update` on the
input `L` (the same returned ViewState, continue flag and collaborator calls,
or the same panic), and one level of recursion is all it needs. -/
theorem update_empty_repeats (term : TermState) (debug : DebugState) (dlv : Dlv) (fuel : Nat)
    (h : term.LastCommand ≠ []) :
    Update (fuel + 2) term debug dlv [] = Update (fuel + 2) term debug dlv term.LastCommand ∧
      Update (fuel + 2) term debug dlv [] ≠ .error .fuel := by
  have heq : Update (fuel + 2) term debug dlv [] =
      Update (fuel + 2) term debug dlv term.LastCommand := by
    rw [update_empty_eq]
    exact update_fuel_irrelevant fuel (fuel + 1) term debug dlv term.LastCommand h
  refine ⟨heq, ?_⟩
  rw [heq]
  intro hf
  have := update_nonempty_error (fuel + 1) term debug dlv term.LastCommand .fuel h hf
  cases this

theorem update_empty_repeats_witness :
    Update 2 { defaultState with LastCommand := "next".toList } sampleDebug dlvEcho [] =
        Update 2 { defaultState with LastCommand := "next".toList } sampleDebug dlvEcho
          "next".toList ∧
      Update 2 { defaultState with LastCommand := "next".toList } sampleDebug dlvEcho []
        ≠ .error .fuel :=
  update_empty_repeats { defaultState with LastCommand := "next".toList } sampleDebug dlvEcho 0
    (by decide)

/-! ## The continue flag -/

/-- C10: with the watch list `[a, b]`, the command `unwatch a` is neither
`quit` nor `continue`, and `Update` does not return continue = true: it
panics in the loop of lines 215-219 (the defect of C2). -/
theorem update_unwatch_first_panics :
    Update 2 { defaultState with Watch := ["a".toList, "b".toList] } sampleDebug dlvFailing
      "unwatch a".toList = .error .panic := by
  rfl

theorem createAndRecord_ok (term : TermState) (dlv : Dlv) (cmd : GoString) (req : Breakpoint)
    (line : Option Int) (r : UpdateResult) (h : createAndRecord term dlv cmd req line = .ok r) :
    r.ok = true := by
  unfold createAndRecord at h
  split at h
  · split at h
    · cases h
    · cases h; rfl
  · cases h; rfl

theorem clearAndRecord_ok (term : TermState) (dlv : Dlv) (cmd after : GoString)
    (r : UpdateResult) (h : clearAndRecord term dlv cmd after = .ok r) : r.ok = true := by
  unfold clearAndRecord at h
  split at h
  · split at h
    · cases h
    · cases h; rfl
  · cases h; rfl

theorem updateDefault_ok (term : TermState) (debug : DebugState) (dlv : Dlv)
    (cmd : GoString) (r : UpdateResult) (h : updateDefault term debug dlv cmd = .ok r) :
    r.ok = true := by
  unfold updateDefault at h
  simp only at h
  split at h
  · exact createAndRecord_ok _ _ _ _ _ _ h
  · split at h
    · exact clearAndRecord_ok _ _ _ _ _ h
    · split at h
      · cases h; rfl
      · split at h
        · split at h
          · cases h
          · cases h; rfl
        · cases h; rfl

theorem flag_of_true (term : TermState) (dlv : Dlv) (cmd : GoString) (r : UpdateResult)
    (hr : r.ok = true) (hq : ¬ (cmd = "q".toList ∨ cmd = "quit".toList))
    (hc : ¬ ((cmd = "c".toList ∨ cmd = "continue".toList) ∧ dlv.continueExited = true)) :
    (r.ok = false ↔
      (cmd = "q".toList ∨ cmd = "quit".toList ∨
        ((cmd = "c".toList ∨ cmd = "continue".toList) ∧ dlv.continueExited = true))) ∧
      (r.ok = false → r.term = term) := by
  rw [hr]
  refine ⟨⟨fun h => absurd h (by decide), ?_⟩, fun h => absurd h (by decide)⟩
  rintro (h | h | h)
  exacts [absurd (Or.inl h) hq, absurd (Or.inr h) hq, absurd h hc]

/-- Whenever `Update` returns on a non-empty command, the continue flag is
false exactly for `q`/`quit` and for `c`/`continue` with the debuggee
reported exited, and then the ViewState is returned as it was. -/
theorem update_flag_of_return (n : Nat) (term : TermState) (debug : DebugState) (dlv : Dlv)
    (cmd : GoString) (r : UpdateResult) (hcmd : cmd ≠ [])
    (h : Update (n + 1) term debug dlv cmd = .ok r) :
    (r.ok = false ↔
      (cmd = "q".toList ∨ cmd = "quit".toList ∨
        ((cmd = "c".toList ∨ cmd = "continue".toList) ∧ dlv.continueExited = true))) ∧
      (r.ok = false → r.term = term) := by
  rw [Update] at h
  replace h := ite_eq_iff.mp h
  obtain ⟨hc, h⟩ | ⟨hc, h⟩ := h
  · have hq : ¬ (cmd = "q".toList ∨ cmd = "quit".toList) := by
      rcases hc with rfl | rfl <;> decide
    replace h := ite_eq_iff.mp h
    obtain ⟨hex, h⟩ | ⟨hex, h⟩ := h
    · cases h
      exact ⟨⟨fun _ => Or.inr (Or.inr ⟨hc, hex⟩), fun _ => rfl⟩, fun _ => rfl⟩
    · cases h
      exact flag_of_true term dlv cmd _ rfl hq (fun h => hex h.2)
  have hc2 : ¬ ((cmd = "c".toList ∨ cmd = "continue".toList) ∧ dlv.continueExited = true) :=
    fun h => hc h.1
  iterate 5
    (replace h := ite_eq_iff.mp h
     obtain ⟨hx, h⟩ | ⟨_, h⟩ := h
     (· cases h
        refine flag_of_true term dlv cmd _ rfl ?_ hc2
        rcases hx with rfl | rfl <;> decide))
  replace h := ite_eq_iff.mp h
  obtain ⟨hq, h⟩ | ⟨hq, h⟩ := h
  · cases h
    refine ⟨⟨fun _ => ?_, fun _ => rfl⟩, fun _ => rfl⟩
    rcases hq with e | e
    exacts [Or.inl e, Or.inr (Or.inl e)]
  iterate 9
    (replace h := ite_eq_iff.mp h
     obtain ⟨_, h⟩ | ⟨_, h⟩ := h
     (· cases h; exact flag_of_true term dlv cmd _ rfl hq hc2))
  replace h := ite_eq_iff.mp h
  obtain ⟨hx, h⟩ | ⟨_, h⟩ := h
  · exact absurd hx hcmd
  · exact flag_of_true term dlv cmd _ (updateDefault_ok _ _ _ _ _ h) hq hc2

/-! ## When removal by text returns -/

theorem unwatchLoop_overrun (after : GoString) :
    ∀ (remaining i : Nat) (watch : List GoString), 1 ≤ remaining →
      watch.length < i + remaining → unwatchLoop after remaining i watch = .error .panic := by
  intro remaining
  induction remaining with
  | zero => intro i watch h1 _; omega
  | succ r ih =>
    intro i watch _ hlen
    rw [unwatchLoop]
    cases hg : watch.get? i with
    | none => rfl
    | some e =>
      have hi : i < watch.length := by
        rcases List.get?_eq_some.mp hg with ⟨hi, _⟩
        exact hi
      have hr : 1 ≤ r := by omega
      simp only []
      by_cases he : e = after
      · rw [if_pos he]
        refine ih (i + 1) (watch.eraseIdx i) hr ?_
        have := List.length_eraseIdx (l := watch) (i := i)
        rw [List.length_eraseIdx]
        split <;> omega
      · rw [if_neg he]
        exact ih (i + 1) watch hr (by omega)

theorem filter_ne_of_not_mem (after : GoString) (pre : List GoString) (h : after ∉ pre) :
    pre.filter (fun e => !decide (e = after)) = pre := by
  rw [List.filter_eq_self]
  intro a ha
  have : ¬ a = after := fun e => h (e ▸ ha)
  simpa using this

theorem unwatchLoop_spec (after : GoString) :
    ∀ (suf pre : List GoString), after ∉ pre →
      unwatchLoop after suf.length pre.length (pre ++ suf) =
        if after ∈ suf.dropLast then .error .panic
        else .ok ((pre ++ suf).filter (fun e => !decide (e = after))) := by
  intro suf
  induction suf with
  | nil =>
    intro pre hpre
    simp [unwatchLoop, filter_ne_of_not_mem after pre hpre]
  | cons x t ih =>
    intro pre hpre
    have hget : (pre ++ x :: t).get? pre.length = some x := by
      rw [List.get?_eq_getElem?, List.getElem?_append_right (Nat.le_refl _)]
      simp
    rw [List.length_cons, unwatchLoop, hget]
    simp only []
    by_cases hx : x = after
    · rw [if_pos hx]
      have herase : (pre ++ x :: t).eraseIdx pre.length = pre ++ t := by
        rw [List.eraseIdx_append_of_length_le (Nat.le_refl _)]
        simp
      rw [herase]
      cases t with
      | nil =>
        simp [unwatchLoop, hx, filter_ne_of_not_mem after pre hpre]
      | cons y t2 =>
        rw [unwatchLoop_overrun after _ _ _ (by simp) (by simp)]
        simp [hx]
    · rw [if_neg hx]
      have hpre2 : after ∉ pre ++ [x] := by
        simp only [List.mem_append, List.mem_singleton, not_or]
        exact ⟨hpre, fun e => hx e.symm⟩
      have := ih (pre ++ [x]) hpre2
      simp only [List.length_append, List.length_singleton, List.append_assoc,
        List.singleton_append] at this
      rw [this]
      cases t with
      | nil => simp
      | cons y t2 =>
        have hne : ¬ after = x := fun e => hx e.symm
        simp [List.dropLast, hne]

/-- When the text is no integer, `unwatch` returns exactly when the text does
not occur before the last position of the watch list, and then with every
entry equal to the text removed; otherwise it panics. -/
theorem unwatch_text (after : GoString) (watch : List GoString)
    (h : (strconvAtoi after).2 = false) :
    unwatch after watch =
      if after ∈ watch.dropLast then .error .panic
      else .ok (watch.filter (fun e => !decide (e = after))) := by
  have hspec := unwatchLoop_spec after watch [] (by simp)
  simp only [List.length_nil, List.nil_append] at hspec
  unfold unwatch
  split
  · next id heq => rw [heq] at h; cases h
  · exact hspec

theorem update_unwatch_eq (fuel : Nat) (term : TermState) (debug : DebugState) (dlv : Dlv)
    (after : GoString) :
    Update (fuel + 1) term debug dlv ("unwatch ".toList ++ after) =
      match unwatch after term.Watch with
      | .error e => .error e
      | .ok watch =>
        .ok (finish { term with Watch := watch } ("unwatch ".toList ++ after) []) := by
  simp [Update, updateDefault, expandAlias, stringsHasPrefix, stringsCutPrefix, String.toList]

/-- On `unwatch r` with a text `r` that is no integer, `Update` panics when
`r` occurs before the last position of the watch list, and otherwise returns
the ViewState with every entry equal to `r` removed from the watch list. -/
theorem update_unwatch_text (fuel : Nat) (term : TermState) (debug : DebugState) (dlv : Dlv)
    (after : GoString) (h : (strconvAtoi after).2 = false) :
    Update (fuel + 1) term debug dlv ("unwatch ".toList ++ after) =
      if after ∈ term.Watch.dropLast then .error .panic
      else .ok (finish
        { term with Watch := term.Watch.filter (fun e => !decide (e = after)) }
        ("unwatch ".toList ++ after) []) := by
  rw [update_unwatch_eq, unwatch_text after term.Watch h]
  by_cases hm : after ∈ term.Watch.dropLast
  · simp only [hm, if_true]
  · simp only [hm, if_false]

/-! ## Lines that fit -/

/-- A variable whose name leaves room, `len(name) + 7 ≤ width`, is rendered
by the loop body of `printVars` as a line of at most `width` bytes of text
before the line break. -/
theorem printVarsEntry_fits (tag : GoString) (v : Variable) (width : Int)
    (htag : tag.length = 4) (hname : len v.Name + 7 ≤ width) (hw : width ≤ maxInt) :
    ∃ line, printVarsEntry tag v width = .ok line ∧ (textLength line : Int) ≤ width + 1 := by
  unfold maxInt at hw
  unfold len at hname
  have hk : wrapInt (wrapInt (width - (v.Name.length : Int)) - 7)
      = width - (v.Name.length : Int) - 7 := by
    rw [wrapInt_of_inRange (width - (v.Name.length : Int)) (by omega) (by omega)]
    exact wrapInt_of_inRange _ (by omega) (by omega)
  unfold printVarsEntry truncateValue len
  simp only [hk]
  by_cases hlong : (v.Rendered.length : Int) > width - (v.Name.length : Int) - 7
  · have hneg : ¬ width - (v.Name.length : Int) - 7 < 0 := by omega
    simp only [hlong, hneg, if_true, if_false]
    refine ⟨_, rfl, ?_⟩
    simp only [textLength, List.length_take, String.toList, htag, List.length_cons,
      List.length_nil]
    omega
  · simp only [hlong, if_false]
    refine ⟨_, rfl, ?_⟩
    simp only [textLength, String.toList, htag, List.length_cons, List.length_nil]
    omega

/-! ## The stepping commands -/

/-- C11, as claimed, fails: after `next` on the default ViewState one `Next`
request has been sent, and the returned ViewState holds `next` as
`LastCommand` where the input held the sentinel `?`. -/
theorem update_next_records_command :
    ∃ r, Update 1 defaultState sampleDebug dlvEcho "next".toList = .ok r ∧
      r.calls = [.Next] ∧ r.term.LastCommand = "next".toList ∧
      defaultState.LastCommand = "?".toList ∧ r.term ≠ defaultState := by
  refine ⟨_, rfl, rfl, rfl, rfl, ?_⟩
  intro h
  have h2 := congrArg TermState.LastCommand h
  revert h2
  decide

/-- C11, amended: each stepping command (`n`/`next`, `s`/`step`,
`so`/`stepout`, `ni`/`nexti`, `si`/`stepi`) makes `Update` send exactly one
request, the corresponding one, and return continue = true with the input
ViewState changed in `LastCommand` only, which becomes the command as
typed. -/
theorem update_step_commands (term : TermState) (debug : DebugState) (dlv : Dlv) (fuel : Nat) :
    (∀ cmd, cmd = "n".toList ∨ cmd = "next".toList →
      Update (fuel + 1) term debug dlv cmd =
        .ok { term := { term with LastCommand := cmd }, ok := true, calls := [.Next] }) ∧
    (∀ cmd, cmd = "s".toList ∨ cmd = "step".toList →
      Update (fuel + 1) term debug dlv cmd =
        .ok { term := { term with LastCommand := cmd }, ok := true, calls := [.Step] }) ∧
    (∀ cmd, cmd = "so".toList ∨ cmd = "stepout".toList →
      Update (fuel + 1) term debug dlv cmd =
        .ok { term := { term with LastCommand := cmd }, ok := true, calls := [.StepOut] }) ∧
    (∀ cmd, cmd = "ni".toList ∨ cmd = "nexti".toList →
      Update (fuel + 1) term debug dlv cmd =
        .ok { term := { term with LastCommand := cmd }, ok := true,
              calls := [.StepInstruction true] }) ∧
    (∀ cmd, cmd = "si".toList ∨ cmd = "stepi".toList →
      Update (fuel + 1) term debug dlv cmd =
        .ok { term := { term with LastCommand := cmd }, ok := true,
              calls := [.StepInstruction false] }) := by
  refine ⟨?_, ?_, ?_, ?_, ?_⟩ <;> intro cmd hcmd <;> rcases hcmd with rfl | rfl <;> rfl

theorem update_step_commands_witness :
    Update 1 defaultState sampleDebug dlvEcho "so".toList =
      .ok { term := { defaultState with LastCommand := "so".toList }, ok := true,
            calls := [.StepOut] } :=
  (update_step_commands defaultState sampleDebug dlvEcho 0).2.2.1 "so".toList (Or.inl rfl)

/-! ## The short forms -/

theorem update_watch_eq (fuel : Nat) (term : TermState) (debug : DebugState) (dlv : Dlv)
    (after : GoString) :
    Update (fuel + 1) term debug dlv ("watch ".toList ++ after) =
      .ok (finish { term with Watch := term.Watch ++ [after] } ("watch ".toList ++ after) []) := by
  simp [Update, updateDefault, expandAlias, stringsHasPrefix, stringsCutPrefix, String.toList]

theorem update_w_eq (fuel : Nat) (term : TermState) (debug : DebugState) (dlv : Dlv)
    (after : GoString) :
    Update (fuel + 1) term debug dlv ("w ".toList ++ after) =
      .ok (finish { term with Watch := term.Watch ++ [after] } ("watch ".toList ++ after) []) := by
  simp [Update, updateDefault, expandAlias, stringsHasPrefix, stringsCutPrefix,
    stringsReplaceFirst, stringsIndex, String.toList]

theorem update_uw_eq (fuel : Nat) (term : TermState) (debug : DebugState) (dlv : Dlv)
    (after : GoString) :
    Update (fuel + 1) term debug dlv ("uw ".toList ++ after) =
      match unwatch after term.Watch with
      | .error e => .error e
      | .ok watch =>
        .ok (finish { term with Watch := watch } ("unwatch ".toList ++ after) []) := by
  simp [Update, updateDefault, expandAlias, stringsHasPrefix, stringsCutPrefix,
    stringsReplaceFirst, stringsIndex, String.toList]

/-- C12: for every argument text `X`, `Update` on the short form gives
exactly the result of `Update` on the long form (the same returned
ViewState with the same `LastCommand`, continue flag and collaborator calls,
or the same panic): `b X` as `break X`, `c X` as `clear X`, `w X` as
`watch X`, `uw X` as `unwatch X`. -/
theorem update_short_forms (term : TermState) (debug : DebugState) (dlv : Dlv)
    (X : GoString) (fuel : Nat) :
    Update (fuel + 1) term debug dlv ("b ".toList ++ X) =
        Update (fuel + 1) term debug dlv ("break ".toList ++ X) ∧
      Update (fuel + 1) term debug dlv ("c ".toList ++ X) =
        Update (fuel + 1) term debug dlv ("clear ".toList ++ X) ∧
      Update (fuel + 1) term debug dlv ("w ".toList ++ X) =
        Update (fuel + 1) term debug dlv ("watch ".toList ++ X) ∧
      Update (fuel + 1) term debug dlv ("uw ".toList ++ X) =
        Update (fuel + 1) term debug dlv ("unwatch ".toList ++ X) := by
  refine ⟨?_, ?_, ?_, ?_⟩
  · rw [update_b_eq, update_break_eq]
  · rw [update_c_eq, update_clear_eq]
  · rw [update_w_eq, update_watch_eq]
  · rw [update_uw_eq, update_unwatch_eq]

/-! ## Removal by index -/

/-- A value `strconv.Atoi` returns without error is a 64-bit `int`. -/
theorem atoi_range (s : GoString) (k : Int) (h : strconvAtoi s = (k, true)) :
    minInt ≤ k ∧ k ≤ maxInt := by
  unfold strconvAtoi at h
  split at h
  · simp at h
  · dsimp only at h
    split at h
    · simp at h
    · split at h
      · simp at h
      · simp at h
      · next n _ =>
        split at h
        · simp at h
        · next h1 =>
          split at h
          · simp at h
          · next h2 =>
            simp only [Prod.mk.injEq, and_true] at h
            unfold minInt maxInt
            split at h
            · next hneg =>
              have : ¬ n > 9223372036854775808 := fun e => h2 ⟨hneg, e⟩
              omega
            · next hneg =>
              have : ¬ n ≥ 9223372036854775808 := fun e => h1 ⟨hneg, e⟩
              omega

/-- C13, as claimed, fails: 9223372036854775808 is an integer out of range
for the watch list `[x, 9223372036854775808]` of two entries, yet
`unwatch 9223372036854775808` does not leave the list unchanged:
`strconv.Atoi` reports a range error, the entry is removed by its text, and
the list returned is `[x]`. -/
theorem update_unwatch_large_integer :
    strconvAtoi "9223372036854775808".toList = (9223372036854775807, false) ∧
      ¬ ((1 : Int) ≤ 9223372036854775808 ∧
          (9223372036854775808 : Int) ≤ len ["x".toList, "9223372036854775808".toList]) ∧
      ∃ r, Update 1
          { defaultState with Watch := ["x".toList, "9223372036854775808".toList] }
          sampleDebug dlvEcho "unwatch 9223372036854775808".toList = .ok r ∧
        r.term.Watch = ["x".toList] :=
  ⟨by decide, by decide, _, rfl, rfl⟩

/-- C13, amended: when the text after `unwatch` is one that `strconv.Atoi`
reads as the integer `k` (so `k` is a 64-bit `int`), `Update` returns the
ViewState with the `k`-th entry of the watch list (counted from 1) removed
and the other entries kept in order when `1 ≤ k ≤ len(Watch)`, and with the
watch list unchanged when `k` is out of range. -/
theorem update_unwatch_index (term : TermState) (debug : DebugState) (dlv : Dlv)
    (after : GoString) (k : Int) (fuel : Nat) (hk : strconvAtoi after = (k, true))
    (hlen : len term.Watch ≤ maxInt) :
    Update (fuel + 1) term debug dlv ("unwatch ".toList ++ after) =
      .ok { term :=
              { term with
                LastCommand := "unwatch ".toList ++ after
                Watch :=
                  if 1 ≤ k ∧ k ≤ len term.Watch then
                    term.Watch.take (k.toNat - 1) ++ term.Watch.drop k.toNat
                  else term.Watch }
            ok := true
            calls := [] } := by
  have hr := atoi_range after k hk
  unfold minInt maxInt at hr
  unfold maxInt at hlen
  rw [update_unwatch_eq]
  unfold unwatch
  rw [hk]
  dsimp only
  by_cases hin : 1 ≤ k ∧ k ≤ len term.Watch
  · have hw : wrapInt (k - 1) = k - 1 := wrapInt_of_inRange _ (by omega) (by omega)
    have hc : wrapInt (k - 1) ≥ 0 ∧ wrapInt (k - 1) < len term.Watch := by
      rw [hw]; omega
    rw [if_pos hc, if_pos hin, hw]
    have he : term.Watch.eraseIdx (k - 1).toNat =
        term.Watch.take (k.toNat - 1) ++ term.Watch.drop k.toNat := by
      rw [List.eraseIdx_eq_take_drop_succ]
      have h1 : (k - 1).toNat = k.toNat - 1 := by omega
      have h2 : k.toNat - 1 + 1 = k.toNat := by omega
      rw [h1, h2]
    rw [he]
    rfl
  · have hc : ¬ (wrapInt (k - 1) ≥ 0 ∧ wrapInt (k - 1) < len term.Watch) := by
      unfold wrapInt
      omega
    rw [if_neg hc, if_neg hin]
    rfl

theorem update_unwatch_index_witness :
    Update 1 { defaultState with Watch := ["x".toList, "y".toList] } sampleDebug dlvEcho
        ("unwatch ".toList ++ "1".toList) =
      .ok { term :=
              { defaultState with
                LastCommand := "unwatch ".toList ++ "1".toList
                Watch :=
                  if (1 : Int) ≤ 1 ∧ (1 : Int) ≤ len ["x".toList, "y".toList] then
                    ["x".toList, "y".toList].take ((1 : Int).toNat - 1) ++
                      ["x".toList, "y".toList].drop (1 : Int).toNat
                  else ["x".toList, "y".toList] }
            ok := true
            calls := [] } :=
  update_unwatch_index { defaultState with Watch := ["x".toList, "y".toList] } sampleDebug
    dlvEcho "1".toList 1 0 (by decide) (by decide)

/-! ## Length of the window -/

/-- C16: for a height `H ≥ 1`, when the focus is not near either boundary
(`f - H/2 ≥ 0` and `f - H/2 + H ≤ L`, `L` a Go `int`) the window has
`end - start = min(H, L)`; and for every `f` and `L` the window is never
longer than `H`. -/
theorem window_length (f H L : Int) (hH : 1 ≤ H) :
    (0 ≤ f - H / 2 → f - H / 2 + H ≤ L → L ≤ maxInt →
      (window f H L).2 - (window f H L).1 = min H L) ∧
    (window f H L).2 - (window f H L).1 ≤ H := by
  have hdiv := tdiv_two_eq H (by omega)
  have hstart : (window f H L).1 = max 0 (wrapInt (f - H / 2)) := by simp [window, hdiv]
  have hend : (window f H L).2 = min (wrapInt (max 0 (wrapInt (f - H / 2)) + H)) L := by
    simp [window, hdiv]
  rw [hstart, hend]
  constructor
  · intro h0 h1 hL
    unfold maxInt at hL
    have hw : wrapInt (f - H / 2) = f - H / 2 := wrapInt_of_inRange _ (by omega) (by omega)
    rw [hw, max_eq_right h0]
    have hw2 : wrapInt (f - H / 2 + H) = f - H / 2 + H :=
      wrapInt_of_inRange _ (by omega) (by omega)
    rw [hw2, min_eq_left h1, min_eq_left (by omega)]
    omega
  · have hs0 : 0 ≤ max 0 (wrapInt (f - H / 2)) := le_max_left _ _
    generalize max 0 (wrapInt (f - H / 2)) = st at hs0 ⊢
    have hle : wrapInt (st + H) ≤ st + H := by
      unfold wrapInt
      omega
    have := min_le_left (wrapInt (st + H)) L
    omega

theorem window_length_witness :
    (0 ≤ (41 : Int) - 9 / 2 → (41 : Int) - 9 / 2 + 9 ≤ 100 → (100 : Int) ≤ maxInt →
      (window 41 9 100).2 - (window 41 9 100).1 = min 9 100) ∧
    (window 41 9 100).2 - (window 41 9 100).1 ≤ 9 :=
  window_length 41 9 100 (by decide)

/-! ## What every returning call has in common -/

theorem update_empty_loop (term : TermState) (debug : DebugState) (dlv : Dlv)
    (h : term.LastCommand = []) : ∀ n, Update n term debug dlv [] = .error .fuel := by
  intro n
  induction n with
  | zero => rfl
  | succ n ih => rw [update_empty_eq, h]; exact ih

/-- A call that returns has handled the dispatched command, which is not
empty, without recursion. -/
theorem update_ok_dispatched (fuel : Nat) (term : TermState) (debug : DebugState) (dlv : Dlv)
    (cmd : GoString) (r : UpdateResult) (h : Update fuel term debug dlv cmd = .ok r) :
    dispatched term cmd ≠ [] ∧ Update 1 term debug dlv (dispatched term cmd) = .ok r := by
  cases fuel with
  | zero => cases h
  | succ n =>
    by_cases hc : cmd = []
    · subst hc
      have hd : dispatched term [] = term.LastCommand := by simp [dispatched]
      rw [hd]
      rw [update_empty_eq] at h
      by_cases hl : term.LastCommand = []
      · rw [hl, update_empty_loop term debug dlv hl n] at h
        cases h
      · cases n with
        | zero => cases h
        | succ m =>
          refine ⟨hl, ?_⟩
          rw [update_fuel_irrelevant 0 m term debug dlv _ hl]
          exact h
    · have hd : dispatched term cmd = cmd := by simp [dispatched, hc]
      rw [hd]
      refine ⟨hc, ?_⟩
      rw [update_fuel_irrelevant 0 n term debug dlv _ hc]
      exact h

theorem updateDefault_heights (term : TermState) (debug : DebugState) (dlv : Dlv)
    (cmd : GoString) (r : UpdateResult) (h : updateDefault term debug dlv cmd = .ok r) :
    r.term.HeightSource = term.HeightSource ∧ r.term.HeightAssembly = term.HeightAssembly := by
  unfold updateDefault at h
  simp only at h
  split at h
  · unfold createAndRecord at h
    split at h
    · split at h
      · cases h
      · cases h; exact ⟨rfl, rfl⟩
    · cases h; exact ⟨rfl, rfl⟩
  · split at h
    · unfold clearAndRecord at h
      split at h
      · split at h
        · cases h
        · cases h; exact ⟨rfl, rfl⟩
      · cases h; exact ⟨rfl, rfl⟩
    · split at h
      · cases h; exact ⟨rfl, rfl⟩
      · split at h
        · split at h
          · cases h
          · cases h; exact ⟨rfl, rfl⟩
        · cases h; exact ⟨rfl, rfl⟩

theorem ite_same (p q : Prop) [Decidable p] [Decidable q] (hp : ¬ p) (hq : ¬ q) (a b c : Int) :
    c = if p then a else if q then b else c := by
  rw [if_neg hp, if_neg hq]

theorem ite_ge_one (p q : Prop) [Decidable p] [Decidable q] (h x : Int) (h1 : 1 ≤ h)
    (hx : x = if p then h + 2 else if q then max 1 (h - 2) else h) : 1 ≤ x := by
  by_cases hp : p
  · rw [if_pos hp] at hx; omega
  · rw [if_neg hp] at hx
    by_cases hq : q
    · rw [if_pos hq] at hx
      have := le_max_left 1 (h - 2)
      omega
    · rw [if_neg hq] at hx; omega

/-- The heights a returning call leaves, from the command it handled. -/
theorem update_heights_eq (term : TermState) (debug : DebugState) (dlv : Dlv)
    (d : GoString) (r : UpdateResult) (hd : d ≠ [])
    (hsmax : term.HeightSource + 2 ≤ maxInt) (hamax : term.HeightAssembly + 2 ≤ maxInt)
    (hs : 1 ≤ term.HeightSource) (ha : 1 ≤ term.HeightAssembly)
    (h : Update 1 term debug dlv d = .ok r) :
    r.term.HeightSource =
        (if d = "grow src".toList ∨ d = "grow source".toList then term.HeightSource + 2
         else if d = "shrink src".toList ∨ d = "shrink source".toList then
           max 1 (term.HeightSource - 2)
         else term.HeightSource) ∧
      r.term.HeightAssembly =
        (if d = "grow asm".toList ∨ d = "grow assembly".toList then term.HeightAssembly + 2
         else if d = "shrink asm".toList ∨ d = "shrink assembly".toList then
           max 1 (term.HeightAssembly - 2)
         else term.HeightAssembly) := by
  unfold maxInt at hsmax hamax
  rw [Update] at h
  replace h := ite_eq_iff.mp h
  obtain ⟨hx, h⟩ | ⟨_, h⟩ := h
  · replace h := ite_eq_iff.mp h
    obtain ⟨_, h⟩ | ⟨_, h⟩ := h <;> cases h <;> rcases hx with rfl | rfl <;>
      exact ⟨ite_same _ _ (by decide) (by decide) _ _ _,
        ite_same _ _ (by decide) (by decide) _ _ _⟩
  iterate 11
    (replace h := ite_eq_iff.mp h
     obtain ⟨hx, h⟩ | ⟨_, h⟩ := h
     (· cases h
        rcases hx with rfl | rfl <;>
          exact ⟨ite_same _ _ (by decide) (by decide) _ _ _,
            ite_same _ _ (by decide) (by decide) _ _ _⟩))
  replace h := ite_eq_iff.mp h
  obtain ⟨hgs, h⟩ | ⟨hgs, h⟩ := h
  · cases h
    refine ⟨?_, ?_⟩
    · rw [if_pos hgs]
      exact wrapInt_of_inRange _ (by omega) (by omega)
    · rcases hgs with rfl | rfl <;> exact ite_same _ _ (by decide) (by decide) _ _ _
  replace h := ite_eq_iff.mp h
  obtain ⟨hga, h⟩ | ⟨hga, h⟩ := h
  · cases h
    refine ⟨?_, ?_⟩
    · rcases hga with rfl | rfl <;> exact ite_same _ _ (by decide) (by decide) _ _ _
    · rw [if_pos hga]
      exact wrapInt_of_inRange _ (by omega) (by omega)
  replace h := ite_eq_iff.mp h
  obtain ⟨hss, h⟩ | ⟨hss, h⟩ := h
  · cases h
    refine ⟨?_, ?_⟩
    · rw [if_neg hgs, if_pos hss]
      show max 1 (wrapInt (term.HeightSource - 2)) = max 1 (term.HeightSource - 2)
      rw [wrapInt_of_inRange _ (by omega) (by omega)]
    · rcases hss with rfl | rfl <;> exact ite_same _ _ (by decide) (by decide) _ _ _
  replace h := ite_eq_iff.mp h
  obtain ⟨hsa, h⟩ | ⟨hsa, h⟩ := h
  · cases h
    refine ⟨?_, ?_⟩
    · rcases hsa with rfl | rfl <;> exact ite_same _ _ (by decide) (by decide) _ _ _
    · rw [if_neg hga, if_pos hsa]
      show max 1 (wrapInt (term.HeightAssembly - 2)) = max 1 (term.HeightAssembly - 2)
      rw [wrapInt_of_inRange _ (by omega) (by omega)]
  replace h := ite_eq_iff.mp h
  obtain ⟨hx, h⟩ | ⟨_, h⟩ := h
  · exact absurd hx hd
  · have := updateDefault_heights _ _ _ _ _ h
    rw [this.1, this.2]
    exact ⟨ite_same _ _ hgs hss _ _ _, ite_same _ _ hga hsa _ _ _⟩

/-! ## Pane heights -/

/-- C14, as claimed, fails: with the source height at the largest `int`,
`grow src` wraps it around to a negative height. -/
theorem update_grow_wraps :
    ∃ r, Update 1 { defaultState with HeightSource := 9223372036854775807 } sampleDebug dlvEcho
        "grow src".toList = .ok r ∧
      r.term.HeightSource = -9223372036854775807 ∧ ¬ 1 ≤ r.term.HeightSource :=
  ⟨_, rfl, by decide, by decide⟩

/-- C14, amended: for a ViewState whose source and disassembly heights are
at least 1 and at most the largest `int` less 2, the ViewState that `Update`
returns has both heights at least 1; `grow` sets the addressed height `h` to
`h + 2`, `shrink` sets it to `max(1, h - 2)`, and no other command changes a
height (the command being the input, or `LastCommand` when the input is
empty). -/
theorem update_heights (term : TermState) (debug : DebugState) (dlv : Dlv)
    (cmd : GoString) (r : UpdateResult) (fuel : Nat)
    (hs : 1 ≤ term.HeightSource) (ha : 1 ≤ term.HeightAssembly)
    (hsmax : term.HeightSource + 2 ≤ maxInt) (hamax : term.HeightAssembly + 2 ≤ maxInt)
    (h : Update fuel term debug dlv cmd = .ok r) :
    1 ≤ r.term.HeightSource ∧ 1 ≤ r.term.HeightAssembly ∧
      r.term.HeightSource =
        (if dispatched term cmd = "grow src".toList ∨ dispatched term cmd = "grow source".toList
         then term.HeightSource + 2
         else if dispatched term cmd = "shrink src".toList ∨
             dispatched term cmd = "shrink source".toList then
           max 1 (term.HeightSource - 2)
         else term.HeightSource) ∧
      r.term.HeightAssembly =
        (if dispatched term cmd = "grow asm".toList ∨
             dispatched term cmd = "grow assembly".toList
         then term.HeightAssembly + 2
         else if dispatched term cmd = "shrink asm".toList ∨
             dispatched term cmd = "shrink assembly".toList then
           max 1 (term.HeightAssembly - 2)
         else term.HeightAssembly) := by
  obtain ⟨hd, h1⟩ := update_ok_dispatched fuel term debug dlv cmd r h
  have heq := update_heights_eq term debug dlv (dispatched term cmd) r hd hsmax hamax hs ha h1
  exact ⟨ite_ge_one _ _ _ _ hs heq.1, ite_ge_one _ _ _ _ ha heq.2, heq.1, heq.2⟩

theorem update_heights_witness :
    ∃ r, Update 2 { defaultState with LastCommand := "shrink asm".toList } sampleDebug dlvEcho []
        = .ok r ∧
      1 ≤ r.term.HeightSource ∧ 1 ≤ r.term.HeightAssembly ∧
      r.term.HeightSource = 9 ∧ r.term.HeightAssembly = 7 := by
  refine ⟨_, rfl, ?_⟩
  have h := update_heights { defaultState with LastCommand := "shrink asm".toList } sampleDebug
    dlvEcho [] _ 2 (by decide) (by decide) (by decide) (by decide) rfl
  refine ⟨h.1, h.2.1, ?_, ?_⟩ <;> decide

/-! ## Termination of the recursion -/

theorem expandAlias_ne_nil (cmd : GoString) (h : cmd ≠ []) : expandAlias cmd ≠ [] := by
  have key : ∀ old new : GoString, new ≠ [] → stringsHasPrefix cmd old = true →
      stringsReplaceFirst cmd old new ≠ [] := by
    intro old new hnew hp
    have hidx : stringsIndex cmd old = some 0 := by
      unfold stringsHasPrefix at hp
      cases cmd <;> simp [stringsIndex, hp]
    simp [stringsReplaceFirst, hidx, hnew]
  unfold expandAlias
  split
  · next hp => exact key _ _ (by decide) hp
  · split
    · next hp => exact key _ _ (by decide) hp
    · split
      · next hp => exact key _ _ (by decide) hp
      · split
        · next hp => exact key _ _ (by decide) hp
        · exact h

theorem updateDefault_lastCommand (term : TermState) (debug : DebugState) (dlv : Dlv)
    (cmd : GoString) (r : UpdateResult) (h : updateDefault term debug dlv cmd = .ok r) :
    r.term.LastCommand = expandAlias cmd := by
  unfold updateDefault at h
  simp only at h
  split at h
  · unfold createAndRecord at h
    split at h
    · split at h
      · cases h
      · cases h; rfl
    · cases h; rfl
  · split at h
    · unfold clearAndRecord at h
      split at h
      · split at h
        · cases h
        · cases h; rfl
      · cases h; rfl
    · split at h
      · cases h; rfl
      · split at h
        · split at h
          · cases h
          · cases h; rfl
        · cases h; rfl

theorem update_lastCommand_ne_nil (term : TermState) (debug : DebugState) (dlv : Dlv)
    (d : GoString) (r : UpdateResult) (hd : d ≠ []) (hl : term.LastCommand ≠ [])
    (h : Update 1 term debug dlv d = .ok r) : r.term.LastCommand ≠ [] := by
  rw [Update] at h
  replace h := ite_eq_iff.mp h
  obtain ⟨_, h⟩ | ⟨_, h⟩ := h
  · replace h := ite_eq_iff.mp h
    obtain ⟨_, h⟩ | ⟨_, h⟩ := h <;> cases h
    · exact hl
    · exact hd
  iterate 15
    (replace h := ite_eq_iff.mp h
     obtain ⟨_, h⟩ | ⟨_, h⟩ := h
     (· cases h
        first | exact hd | exact hl))
  replace h := ite_eq_iff.mp h
  obtain ⟨hx, h⟩ | ⟨_, h⟩ := h
  · exact absurd hx hd
  · rw [updateDefault_lastCommand _ _ _ _ _ h]
    exact expandAlias_ne_nil d hd

/-- With a non-empty `LastCommand`, a call of `Update` needs no more than
one level of recursion, never runs out of budget, and a ViewState it returns
has a non-empty `LastCommand` again. -/
theorem update_recursion_bounded (term : TermState) (debug : DebugState) (dlv : Dlv)
    (cmd : GoString) (fuel : Nat) (hl : term.LastCommand ≠ []) :
    Update (fuel + 2) term debug dlv cmd = Update 2 term debug dlv cmd ∧
      Update 2 term debug dlv cmd ≠ .error .fuel ∧
      ∀ r, Update 2 term debug dlv cmd = .ok r → r.term.LastCommand ≠ [] := by
  refine ⟨?_, ?_, ?_⟩
  · by_cases hc : cmd = []
    · subst hc
      rw [update_empty_eq, update_empty_eq]
      exact update_fuel_irrelevant fuel 0 term debug dlv _ hl
    · exact update_fuel_irrelevant (fuel + 1) 1 term debug dlv _ hc
  · by_cases hc : cmd = []
    · subst hc
      rw [update_empty_eq]
      intro hf
      have := update_nonempty_error 0 term debug dlv _ .fuel hl hf
      cases this
    · intro hf
      have := update_nonempty_error 1 term debug dlv cmd .fuel hc hf
      cases this
  · intro r hr
    obtain ⟨hd, h1⟩ := update_ok_dispatched 2 term debug dlv cmd r hr
    exact update_lastCommand_ne_nil term debug dlv _ r hd hl h1

/-- C20: with `LastCommand` the sentinel `?` and the watch list `[x, y]`,
`Update` on `uw x` does not return: it panics in the loop of lines 215-219
(the defect of C2). -/
theorem update_uw_first_panics :
    Update 2 { defaultState with Watch := ["x".toList, "y".toList] } sampleDebug dlvEcho
      "uw x".toList = .error .panic := by
  rfl

/-! ## The breakpoints pane -/

theorem printBreakpointsRows_eq (bps : List Breakpoint) :
    printBreakpointsRows bps =
      (bps.filter (fun bp => decide (0 < bp.ID))).map breakpointRow := by
  induction bps with
  | nil => rfl
  | cons bp rest ih =>
    by_cases h : bp.ID > 0
    · have h2 : 0 < bp.ID := h
      simp [printBreakpointsRows, h, h2, ih]
    · have h2 : ¬ 0 < bp.ID := h
      simp [printBreakpointsRows, h, h2, ih]

theorem printHeader_ok (title : GoString) (width : Int) (hw : len title + 5 ≤ width)
    (hmax : 3 * (width - len title - 5) ≤ maxInt) :
    ∃ header, printHeader title width = .ok header := by
  unfold maxInt at hmax
  have hn : (0 : Int) ≤ len title := by simp [len]
  have hk : wrapInt (wrapInt (wrapInt (width - len title) - 2) - 3) = width - len title - 5 := by
    rw [wrapInt_of_inRange (width - len title) (by omega) (by omega),
      wrapInt_of_inRange (width - len title - 2) (by omega) (by omega),
      wrapInt_of_inRange (width - len title - 2 - 3) (by omega) (by omega)]
    omega
  have h3 : stringsRepeat heavyRule 3 = .ok (List.replicate 3 heavyRule).flatten := rfl
  have hlen : len heavyRule = 3 := by decide
  have hr : stringsRepeat heavyRule (width - len title - 5) =
      .ok (List.replicate (width - len title - 5).toNat heavyRule).flatten := by
    unfold stringsRepeat
    rw [if_neg (by omega), hlen, if_neg (by unfold maxInt; omega)]
  unfold printHeader
  simp only [hk, h3, hr]
  exact ⟨_, rfl⟩

/-- C17, as claimed, fails: for a list holding one breakpoint with the
non-zero identifier -1, `printBreakpoints` writes the header and no line. -/
theorem printBreakpoints_skips_negative :
    internalBreakpoint.ID ≠ 0 ∧
      ∃ header, printHeader "Breakpoints".toList 80 = .ok header ∧
        printBreakpoints [internalBreakpoint] 80 = .ok header :=
  ⟨by decide, _, rfl, rfl⟩

/-- C17, amended: when the header is rendered (width at least 16),
`printBreakpoints` emits after it exactly one line for each breakpoint whose
identifier is greater than 0, in list order, and no line for a breakpoint
whose identifier is 0 or negative. -/
theorem printBreakpoints_lines (bps : List Breakpoint) (width : Int) (hw : 16 ≤ width)
    (hmax : 3 * (width - 16) ≤ maxInt) :
    ∃ header, printHeader "Breakpoints".toList width = .ok header ∧
      printBreakpoints bps width =
        .ok (header ++
          (tabwriterAlign
            ((bps.filter (fun bp => decide (0 < bp.ID))).map breakpointRow)).map Piece.text) ∧
      (tabwriterAlign
          ((bps.filter (fun bp => decide (0 < bp.ID))).map breakpointRow)).length =
        (bps.filter (fun bp => decide (0 < bp.ID))).length := by
  have hl : len "Breakpoints".toList = 11 := by decide
  obtain ⟨header, hh⟩ := printHeader_ok "Breakpoints".toList width (by rw [hl]; omega)
    (by rw [hl]; have : width - 11 - 5 = width - 16 := by omega
        rw [this]; exact hmax)
  refine ⟨header, hh, ?_, ?_⟩
  · unfold printBreakpoints
    rw [hh, printBreakpointsRows_eq]
  · simp [tabwriterAlign]

theorem printBreakpoints_lines_witness :
    ∃ header, printHeader "Breakpoints".toList 80 = .ok header ∧
      printBreakpoints [internalBreakpoint, { internalBreakpoint with ID := 3 }] 80 =
        .ok (header ++
          (tabwriterAlign
            (([internalBreakpoint, { internalBreakpoint with ID := 3 }].filter
              (fun bp => decide (0 < bp.ID))).map breakpointRow)).map Piece.text) ∧
      (tabwriterAlign
          (([internalBreakpoint, { internalBreakpoint with ID := 3 }].filter
            (fun bp => decide (0 < bp.ID))).map breakpointRow)).length =
        ([internalBreakpoint, { internalBreakpoint with ID := 3 }].filter
          (fun bp => decide (0 < bp.ID))).length :=
  printBreakpoints_lines [internalBreakpoint, { internalBreakpoint with ID := 3 }] 80
    (by decide) (by decide)

/-! ## The watch results of the snapshot -/

theorem evalWatch_length {σ : Type} (S : Session σ) (g : Int) :
    ∀ (exprs : List GoString) (s : σ), (evalWatch S g s exprs).1.length = exprs.length := by
  intro exprs
  induction exprs with
  | nil => intro s; rfl
  | cons e rest ih => intro s; simp [evalWatch, ih]

theorem evalWatch_get {σ : Type} (S : Session σ) (g : Int) :
    ∀ (exprs : List GoString) (s : σ) (i : Nat) (expr : GoString),
      exprs.get? i = some expr →
      (evalWatch S g s exprs).1.get? i =
        some (watchEntry S expr
          (S.evalVariable (evalWatch S g s (exprs.take i)).2 g expr).1) := by
  intro exprs
  induction exprs with
  | nil => intro s i expr h; simp at h
  | cons e rest ih =>
    intro s i expr h
    cases i with
    | zero =>
      simp only [List.get?_cons_zero, Option.some.injEq] at h
      subst h
      simp [evalWatch]
    | succ j =>
      simp only [List.get?_cons_succ] at h
      have := ih (S.evalVariable s g e).2 j expr h
      simpa [evalWatch] using this

/-- C18, as claimed, fails: with one watch expression configured and the
current thread running no goroutine, `GetState` succeeds and the snapshot
has no watch result. -/
theorem getState_no_goroutine_no_watch :
    GetState (sampleSession 0) () ["x".toList] =
        .ok (some { File := "/src/main.go".toList, Line := 42, GoroutineID := 0,
                    VarsLocal := [], VarsFunc := [], Watch := [], Breakpoints := [],
                    Assembly := [] }, ()) ∧
      ([] : List Variable).length ≠ ["x".toList].length :=
  ⟨rfl, by decide⟩

theorem evalWatch_state {σ : Type} (S : Session σ) (g : Int) :
    ∀ (exprs : List GoString) (s : σ),
      (evalWatch S g s exprs).2 =
        exprs.foldl (fun st e => (S.evalVariable st g e).2) s := by
  intro exprs
  induction exprs with
  | nil => intro s; rfl
  | cons e rest ih => intro s; simp [evalWatch, ih]

/-- C18, amended: when `GetState` succeeds and the current goroutine
identifier is not 0, the snapshot's watch results have exactly one entry per
configured expression, in configured order; the `i`-th entry is what the
collaborator answers when asked to evaluate the `i`-th expression (in the
state it is in after `GetState`'s five earlier calls and the evaluations of
the expressions before it) or, if that evaluation failed, a placeholder
carrying only the expression text as its name.  When the identifier is 0 the
watch results are empty. -/
theorem getState_watch {σ : Type} (S : Session σ) (s s' : σ) (watchExpr : List GoString)
    (state : DebugState) (h : GetState S s watchExpr = .ok (some state, s')) :
    (state.GoroutineID = 0 → state.Watch = []) ∧
    (state.GoroutineID ≠ 0 →
      ∃ th, (S.getState s).1 = some { CurrentThread := some th } ∧
        th.GoroutineID = state.GoroutineID ∧
        state.Watch.length = watchExpr.length ∧
        ∀ i expr, watchExpr.get? i = some expr →
          ∃ v, state.Watch.get? i = some v ∧
            (∀ answer,
              (S.evalVariable
                ((watchExpr.take i).foldl (fun st e => (S.evalVariable st th.GoroutineID e).2)
                  (S.disassemblePC
                    (S.listFunctionArgs
                      (S.listLocalVariables
                        (S.listBreakpoints (S.getState s).2 true).2 th.GoroutineID).2
                      th.GoroutineID).2
                    th.GoroutineID th.PC).2)
                th.GoroutineID expr).1 = some answer → v = answer) ∧
            ((S.evalVariable
                ((watchExpr.take i).foldl (fun st e => (S.evalVariable st th.GoroutineID e).2)
                  (S.disassemblePC
                    (S.listFunctionArgs
                      (S.listLocalVariables
                        (S.listBreakpoints (S.getState s).2 true).2 th.GoroutineID).2
                      th.GoroutineID).2
                    th.GoroutineID th.PC).2)
                th.GoroutineID expr).1 = none →
              v = { Name := expr, Rendered := S.zeroRendered })) := by
  unfold GetState at h
  split at h
  · cases h
  · next ds s1 hgs =>
    split at h
    · cases h
    · next th hth =>
      split at h
      · cases h
      · next bps s2 hlb =>
        split at h
        · next hg =>
          split at h
          · cases h
          · next locals s3 hll =>
            split at h
            · cases h
            · next args s4 hfa =>
              split at h
              · cases h
              · next asm s5 hda =>
                simp only [Except.ok.injEq, Prod.mk.injEq, Option.some.injEq] at h
                obtain ⟨hst, _⟩ := h
                subst hst
                refine ⟨fun h0 => absurd h0 hg, fun _ => ⟨th, ?_, rfl, ?_, ?_⟩⟩
                · rw [hgs]
                  cases ds
                  simp only at hth
                  rw [hth]
                · exact evalWatch_length S th.GoroutineID watchExpr s5
                · intro i expr hi
                  have hs1 : (S.getState s).2 = s1 := by rw [hgs]
                  have hs2 : (S.listBreakpoints s1 true).2 = s2 := by rw [hlb]
                  have hs3 : (S.listLocalVariables s2 th.GoroutineID).2 = s3 := by rw [hll]
                  have hs4 : (S.listFunctionArgs s3 th.GoroutineID).2 = s4 := by rw [hfa]
                  have hs5 : (S.disassemblePC s4 th.GoroutineID th.PC).2 = s5 := by rw [hda]
                  rw [hs1, hs2, hs3, hs4, hs5]
                  have hget := evalWatch_get S th.GoroutineID watchExpr s5 i expr hi
                  rw [evalWatch_state] at hget
                  refine ⟨_, hget, ?_, ?_⟩
                  · intro answer ha
                    rw [ha]
                    rfl
                  · intro hn
                    rw [hn]
                    rfl
        · next hg =>
          simp only [Except.ok.injEq, Prod.mk.injEq, Option.some.injEq] at h
          obtain ⟨hst, _⟩ := h
          subst hst
          refine ⟨fun _ => rfl, fun hne => ?_⟩
          simp only [ne_eq, Decidable.not_not] at hg
          exact absurd hg hne

theorem getState_watch_witness :
    GetState (sampleSession 1) () ["x".toList, "y".toList] =
        .ok (some { File := "/src/main.go".toList, Line := 42, GoroutineID := 1,
                    VarsLocal := [], VarsFunc := [],
                    Watch := [{ Name := "x".toList, Rendered := "1".toList },
                      { Name := "y".toList, Rendered := [] }],
                    Breakpoints := [], Assembly := [] }, ()) ∧
      ((1 : Int) ≠ 0 →
        ∃ th, ((sampleSession 1).getState ()).1 = some { CurrentThread := some th } ∧
          th.GoroutineID = 1 ∧
          ([{ Name := "x".toList, Rendered := "1".toList },
              { Name := "y".toList, Rendered := [] }] : List Variable).length =
            ["x".toList, "y".toList].length ∧
          ∀ i expr, ["x".toList, "y".toList].get? i = some expr →
            ∃ v, ([{ Name := "x".toList, Rendered := "1".toList },
                { Name := "y".toList, Rendered := [] }] : List Variable).get? i = some v ∧
              (∀ answer,
                ((sampleSession 1).evalVariable
                  ((["x".toList, "y".toList].take i).foldl
                    (fun st e => ((sampleSession 1).evalVariable st th.GoroutineID e).2)
                    ((sampleSession 1).disassemblePC
                      ((sampleSession 1).listFunctionArgs
                        ((sampleSession 1).listLocalVariables
                          ((sampleSession 1).listBreakpoints
                            ((sampleSession 1).getState ()).2 true).2 th.GoroutineID).2
                        th.GoroutineID).2
                      th.GoroutineID th.PC).2)
                  th.GoroutineID expr).1 = some answer → v = answer) ∧
              (((sampleSession 1).evalVariable
                  ((["x".toList, "y".toList].take i).foldl
                    (fun st e => ((sampleSession 1).evalVariable st th.GoroutineID e).2)
                    ((sampleSession 1).disassemblePC
                      ((sampleSession 1).listFunctionArgs
                        ((sampleSession 1).listLocalVariables
                          ((sampleSession 1).listBreakpoints
                            ((sampleSession 1).getState ()).2 true).2 th.GoroutineID).2
                        th.GoroutineID).2
                      th.GoroutineID th.PC).2)
                  th.GoroutineID expr).1 = none →
                v = { Name := expr, Rendered := (sampleSession 1).zeroRendered })) :=
  ⟨rfl,
    (getState_watch (sampleSession 1) () () ["x".toList, "y".toList]
      { File := "/src/main.go".toList, Line := 42, GoroutineID := 1,
        VarsLocal := [], VarsFunc := [],
        Watch := [{ Name := "x".toList, Rendered := "1".toList },
          { Name := "y".toList, Rendered := [] }],
        Breakpoints := [], Assembly := [] } rfl).2⟩

/-! ## The gutter of the source pane -/

theorem decimal_step (n : Nat) (h : 0 < n) :
    decimal n = decimal (n / 10) ++ [Char.ofNat (n % 10 + '0'.toNat)] := by
  unfold decimal
  rw [Nat.digits_def' (by decide) h]
  simp

theorem digits_length_step (n : Nat) (h : 0 < n) :
    (Nat.digits 10 n).length = (Nat.digits 10 (n / 10)).length + 1 := by
  rw [Nat.digits_def' (by decide) h]
  simp

theorem decimal_length (n : Nat) : (decimal n).length = (Nat.digits 10 n).length := by
  simp [decimal]

theorem iotaLoop_spec :
    ∀ (todo : GoString) (n : Nat) (done : GoString),
      (Nat.digits 10 n).length ≤ todo.length →
      iotaLoop todo (n : Int) done =
        List.replicate (todo.length - (Nat.digits 10 n).length) ' ' ++ decimal n ++ done := by
  intro todo
  induction todo with
  | nil =>
    intro n done h
    have hn : n = 0 := by
      by_contra hne
      have := digits_length_step n (Nat.pos_of_ne_zero hne)
      have h0 : (Nat.digits 10 n).length ≤ 0 := h
      omega
    subst hn
    simp [iotaLoop, decimal]
  | cons c t ih =>
    intro n done h
    rw [iotaLoop]
    by_cases hpos : 0 < n
    · have hint : (n : Int) > 0 := by exact_mod_cast hpos
      rw [if_pos hint]
      have hdiv : Int.tdiv (n : Int) 10 = ((n / 10 : Nat) : Int) := by
        rw [Int.tdiv_eq_ediv (by omega) (by omega)]
        norm_cast
      have hmod : (Int.tmod (n : Int) 10).toNat = n % 10 := by
        rw [Int.tmod_eq_emod (by omega) (by omega)]
        omega
      have hl := digits_length_step n hpos
      rw [hdiv, hmod, ih (n / 10) _ (by simp at h; omega), decimal_step n hpos]
      have : t.length - (Nat.digits 10 (n / 10)).length =
          (c :: t).length - (Nat.digits 10 n).length := by
        simp; omega
      rw [this]
      simp
    · have hn : n = 0 := by omega
      subst hn
      have hint : ¬ ((0 : Nat) : Int) > 0 := by simp
      rw [if_neg hint, ih 0 _ (by simp)]
      simp [decimal, List.replicate_succ']

/-- What `iota` leaves in a buffer wide enough for the number: its decimal
digits, right-aligned, blanks before them, whatever the buffer held. -/
theorem iota_spec (buf : GoString) (n : Nat) (h : (Nat.digits 10 n).length ≤ buf.length) :
    iota buf (n : Int) = padLeft buf.length (decimal n) := by
  unfold iota padLeft
  rw [iotaLoop_spec buf.reverse n [] (by simpa using h)]
  simp [decimal_length]

theorem digits_length_le_19 (n : Nat) (h : (n : Int) ≤ maxInt) :
    (Nat.digits 10 n).length ≤ 19 := by
  unfold maxInt at h
  have hn : n ≤ 9223372036854775807 := by exact_mod_cast h
  have hmono := Nat.le_digits_len_le 10 n 9223372036854775807 hn
  have h19 : (Nat.digits 10 9223372036854775807).length = 19 := by norm_num
  omega

theorem numDigitsLoop_spec :
    ∀ (fuel n : Nat) (count : Int), n ≤ fuel → 0 ≤ count →
      count + (Nat.digits 10 n).length ≤ maxInt →
      numDigitsLoop fuel (n : Int) count = count + (Nat.digits 10 n).length := by
  intro fuel
  induction fuel with
  | zero =>
    intro n count hn _ _
    have : n = 0 := by omega
    subst this
    simp [numDigitsLoop]
  | succ f ih =>
    intro n count hn hc hmax
    rw [numDigitsLoop]
    by_cases hpos : 0 < n
    · have hne : (n : Int) ≠ 0 := by omega
      rw [if_pos hne]
      have hdiv : Int.tdiv (n : Int) 10 = ((n / 10 : Nat) : Int) := by
        rw [Int.tdiv_eq_ediv (by omega) (by omega)]
        norm_cast
      have hl := digits_length_step n hpos
      unfold maxInt at hmax
      have hw : wrapInt (count + 1) = count + 1 :=
        wrapInt_of_inRange _ (by omega) (by omega)
      rw [hdiv, hw, ih (n / 10) (count + 1) (by omega) (by omega) (by unfold maxInt; omega), hl]
      push_cast
      omega
    · have : n = 0 := by omega
      subst this
      simp

theorem numDigits_spec (n : Nat) (hpos : 0 < n) (h : (n : Int) ≤ maxInt) :
    numDigits (n : Int) = (Nat.digits 10 n).length := by
  unfold numDigits
  have hne : (n : Int) ≠ 0 := by omega
  rw [if_neg hne]
  have h19 := digits_length_le_19 n h
  rw [numDigitsLoop_spec _ n 0 (by simp) (by omega) (by unfold maxInt; omega)]
  simp

theorem padLeft_length (width : Nat) (s : GoString) (h : s.length ≤ width) :
    (padLeft width s).length = width := by
  simp [padLeft]
  omega

theorem printSourceLine_shape (lines : List GoString) (bps : List Breakpoint) (file : GoString)
    (currLine width digits i : Int) (gutter : GoString) (row : List Piece)
    (h : printSourceLine lines bps file currLine width digits i gutter = .ok row) :
    ∃ c1 c2 body, row =
      [.color c1, .text gutter, .text " ".toList, .color c2, .text body, .text "\n".toList] := by
  unfold printSourceLine at h
  split at h
  · cases h
  · split at h
    · cases h
    · cases h
      exact ⟨_, _, _, rfl⟩

theorem printSourceLoop_gutters (lines : List GoString) (bps : List Breakpoint)
    (file : GoString) (currLine width digits : Int) (D : Nat) (stop : Int)
    (hstop : stop ≤ maxInt)
    (hD : ∀ n : Nat, 0 < n → (n : Int) ≤ stop → (Nat.digits 10 n).length ≤ D) :
    ∀ (remaining : Nat) (i : Int) (buf : GoString) (rows : List (List Piece)),
      0 ≤ i → i + remaining ≤ stop → buf.length = D →
      printSourceLoop lines bps file currLine width digits remaining i buf = .ok rows →
      rows.length = remaining ∧
        ∀ k row, rows.get? k = some row →
          ∃ c1 c2 body, row =
            [.color c1, .text (padLeft D (decimal (i + k + 1).toNat)), .text " ".toList,
              .color c2, .text body, .text "\n".toList] := by
  intro remaining
  induction remaining with
  | zero =>
    intro i buf rows _ _ _ h
    simp only [printSourceLoop, Except.ok.injEq] at h
    subst h
    exact ⟨rfl, fun k row hk => by simp at hk⟩
  | succ r ih =>
    intro i buf rows hi hle hbuf h
    unfold maxInt at hstop
    have hw : wrapInt (i + 1) = i + 1 := wrapInt_of_inRange _ (by omega) (by omega)
    have hcast : i + 1 = (((i + 1).toNat : Nat) : Int) := by omega
    have hdig : (Nat.digits 10 (i + 1).toNat).length ≤ D :=
      hD (i + 1).toNat (by omega) (by omega)
    have hg : iota buf (i + 1) = padLeft D (decimal (i + 1).toNat) := by
      conv_lhs => rw [hcast]
      rw [iota_spec buf _ (by rw [hbuf]; exact hdig), hbuf]
    have hglen : (padLeft D (decimal (i + 1).toNat)).length = D :=
      padLeft_length _ _ (by rw [decimal_length]; exact hdig)
    rw [printSourceLoop] at h
    simp only [hw] at h
    simp only [hg] at h
    split at h
    · cases h
    · next row0 hrow =>
      split at h
      · cases h
      · next rest hrest =>
        simp only [Except.ok.injEq] at h
        subst h
        obtain ⟨hl, hrows⟩ := ih (i + 1) _ rest (by omega) (by push_cast at hle; omega) hglen hrest
        refine ⟨by simp [hl], ?_⟩
        intro k row hk
        cases k with
        | zero =>
          simp only [List.get?_cons_zero, Option.some.injEq] at hk
          subst hk
          obtain ⟨c1, c2, body, hshape⟩ := printSourceLine_shape _ _ _ _ _ _ _ _ _ hrow
          refine ⟨c1, c2, body, ?_⟩
          rw [hshape]
          simp
        | succ j =>
          simp only [List.get?_cons_succ] at hk
          obtain ⟨c1, c2, body, hshape⟩ := hrows j row hk
          refine ⟨c1, c2, body, ?_⟩
          rw [hshape]
          have : i + 1 + (j : Int) + 1 = i + ((j + 1 : Nat) : Int) + 1 := by
            push_cast; ring
          rw [this]

/-- C19: for every window `[start, end)` that `printSource` renders, there is
one body line per index of the window, and the gutter written for index
`start + k` is exactly `max(3, numDigits(end))` bytes wide and holds the
full decimal representation of the line number `start + k + 1`,
right-aligned, with blanks on the left. -/
theorem printSource_gutter (files : GoString → Option GoString) (file : GoString) (pc : Int)
    (bps : List Breakpoint) (width height start stop : Int) (rows : List (List Piece))
    (hw : window (wrapInt (pc - 1)) height (len (readFileLines files file)) = (start, stop))
    (h : printSourceRows files file pc bps width height = .ok rows) :
    rows.length = (stop - start).toNat ∧
      ∀ k row, rows.get? k = some row →
        (∃ c1 c2 body, row =
          [.color c1,
            .text (padLeft (max 3 (numDigits stop)).toNat (decimal (start + k + 1).toNat)),
            .text " ".toList, .color c2, .text body, .text "\n".toList]) ∧
        (decimal (start + k + 1).toNat).length ≤ (max 3 (numDigits stop)).toNat ∧
        (padLeft (max 3 (numDigits stop)).toNat (decimal (start + k + 1).toNat)).length =
          (max 3 (numDigits stop)).toNat := by
  have hstart : 0 ≤ start := by
    have := congrArg Prod.fst hw
    simp only [window] at this
    rw [← this]
    exact le_max_left _ _
  have hstop : stop ≤ maxInt := by
    have := congrArg Prod.snd hw
    simp only [window] at this
    rw [← this]
    refine le_trans (min_le_left _ _) ?_
    unfold wrapInt maxInt
    omega
  unfold printSourceRows at h
  simp only [hw, gutterDigits] at h
  by_cases hempty : stop - start ≤ 0
  · have h0 : (stop - start).toNat = 0 := by omega
    rw [h0] at h
    simp only [printSourceLoop, Except.ok.injEq] at h
    subst h
    exact ⟨by rw [h0]; rfl, fun k row hk => by simp at hk⟩
  · have hpos : 0 < stop := by omega
    have hstopcast : stop = ((stop.toNat : Nat) : Int) := by omega
    have hnum : numDigits stop = (Nat.digits 10 stop.toNat).length := by
      conv_lhs => rw [hstopcast]
      exact numDigits_spec stop.toNat (by omega) (by rw [← hstopcast]; exact hstop)
    have hD : ∀ n : Nat, 0 < n → (n : Int) ≤ stop →
        (Nat.digits 10 n).length ≤ (max 3 (numDigits stop)).toNat := by
      intro n _ hn
      have hmono := Nat.le_digits_len_le 10 n stop.toNat (by omega)
      have := le_max_right 3 (numDigits stop)
      omega
    have hbuf : (List.replicate (max 3 (numDigits stop)).toNat ' ').length =
        (max 3 (numDigits stop)).toNat := by simp
    obtain ⟨hl, hrows⟩ := printSourceLoop_gutters _ _ _ _ _ _ _ stop hstop hD
      (stop - start).toNat start _ rows hstart (by omega) hbuf h
    refine ⟨hl, ?_⟩
    intro k row hk
    have hk2 : k < rows.length := by
      rcases List.get?_eq_some.mp hk with ⟨hlt, _⟩
      exact hlt
    have hdig : (Nat.digits 10 (start + k + 1).toNat).length ≤ (max 3 (numDigits stop)).toNat :=
      hD _ (by omega) (by omega)
    refine ⟨hrows k row hk, by rw [decimal_length]; exact hdig,
      padLeft_length _ _ (by rw [decimal_length]; exact hdig)⟩

theorem printSource_gutter_witness :
    [[Piece.color ColorFGCyan, .text "  1".toList, .text " ".toList, .color ColorFGCyan,
        .text "x := compute(a,b)".toList, .text "\n".toList]].length = ((1 : Int) - 0).toNat ∧
      ∀ k row,
        [[Piece.color ColorFGCyan, .text "  1".toList, .text " ".toList, .color ColorFGCyan,
          .text "x := compute(a,b)".toList, .text "\n".toList]].get? k = some row →
        (∃ c1 c2 body, row =
          [.color c1,
            .text (padLeft (max 3 (numDigits 1)).toNat (decimal ((0 : Int) + k + 1).toNat)),
            .text " ".toList, .color c2, .text body, .text "\n".toList]) ∧
        (decimal ((0 : Int) + k + 1).toNat).length ≤ (max 3 (numDigits 1)).toNat ∧
        (padLeft (max 3 (numDigits 1)).toNat (decimal ((0 : Int) + k + 1).toNat)).length =
          (max 3 (numDigits 1)).toNat :=
  printSource_gutter sampleFiles "/src/main.go".toList 1 [] 40 9 0 1 _ (by decide) rfl

/-! ## Width of the source lines -/

/-- C15: at width 20, a source line of 17 bytes is not longer than
`width - 3`, so it is written whole behind the gutter of 3 bytes and the
blank: 21 bytes of text before the line break, one more than the width. -/
theorem printSource_line_exceeds_width :
    printSourceRows sampleFiles "/src/main.go".toList 1 [] 20 9 =
        .ok [[.color ColorFGCyan, .text "  1".toList, .text " ".toList, .color ColorFGCyan,
          .text "x := compute(a,b)".toList, .text "\n".toList]] ∧
      (∃ header, printSource sampleFiles "/src/main.go".toList 1 [] 20 9 =
        .ok (header ++ [.color ColorFGCyan, .text "  1".toList, .text " ".toList,
          .color ColorFGCyan, .text "x := compute(a,b)".toList, .text "\n".toList])) ∧
      textLength [.color ColorFGCyan, .text "  1".toList, .text " ".toList,
          .color ColorFGCyan, .text "x := compute(a,b)".toList, .text "\n".toList] = 21 + 1 ∧
      ¬ (21 : Int) ≤ 20 :=
  ⟨rfl, ⟨_, rfl⟩, rfl, by decide⟩

end God
